import Mathlib

/-!
Verification of the GeoStar Raster core (Raster.hpp / Raster.cpp).

This file gives a shallow embedding of the raster data model and the
image-processing operations of the repository, and proves (or refutes)
the specification claims about them.

Modelling conventions:
* A stored 2D array is a total function `Int → Int → α` (row index first,
  matching the HDF5 layout `dims[0] = ny, dims[1] = nx`); a `Raster` carries
  its dimensions `nx, ny : Nat` (`get_nx`/`get_ny` are nonnegative `long int`s
  read from the dataspace) together with its grid of samples.
* C++ `double`/`float` sample arithmetic is embedded exactly over `ℚ`.
* C++ exceptions are embedded as an `Option RasterError` (or `Except`)
  result component; where an operation throws, the state at the throw point
  is returned alongside the error, so "raises E before writing anything"
  is expressible.
* Integer division of nonnegative C++ `long int`s is `Nat` division.
-/

namespace GeoStar

set_option linter.unusedVariables false

/-- Exception kinds thrown by the raster operations (Exceptions.hpp).
`outOfBounds` stands for the undefined behaviour of an out-of-range
`std::vector::operator[]` access, which is not a GeoStar exception but is
needed to give OOB accesses a semantics. -/
inductive RasterError where
  | sliceSize
  | rasterSize
  | radiusSize
  | partition
  | integerParameter
  | divideByZero
  | outOfBounds
  deriving DecidableEq, Repr

/-- Element types accepted at raster creation (`RasterType.hpp`); the
`Raster` create-constructor accepts exactly INT8U, INT16U and REAL32. -/
inductive RasterType where
  | INT8U
  | INT16U
  | REAL32
  deriving DecidableEq, Repr

/-- The mathematical carrier of each supported element type: 8-bit unsigned,
16-bit unsigned, 32-bit float (embedded as ℚ). -/
@[reducible] def RasterType.carrier : RasterType → Type
  | .INT8U => Fin 256
  | .INT16U => Fin 65536
  | .REAL32 => ℚ

instance : (t : RasterType) → Inhabited t.carrier
  | .INT8U => ⟨0⟩
  | .INT16U => ⟨0⟩
  | .REAL32 => ⟨0⟩

instance : (t : RasterType) → DecidableEq t.carrier
  | .INT8U => inferInstanceAs (DecidableEq (Fin 256))
  | .INT16U => inferInstanceAs (DecidableEq (Fin 65536))
  | .REAL32 => inferInstanceAs (DecidableEq ℚ)

/-- A stored 2D array of samples: `g y x` is the sample in row `y`,
column `x` (HDF5 dimension order: `start[0]` is the y offset). -/
def Grid (α : Type) : Type := Int → Int → α

/-- The effect of `H5::DataSet::write` on a hyperslab selection with
`start = (y0, x0)` and `count = (h, w)`: grid position `(y, x)` inside the
selected rectangle receives `buffer[(y-y0)*w + (x-x0)]` (row-major), and
every other position is untouched. -/
def hyperslabWrite {α : Type} (x0 y0 : Int) (w h : Nat) (buffer : List α)
    (g : Grid α) : Grid α :=
  fun y x =>
    if y0 ≤ y ∧ y < y0 + h ∧ x0 ≤ x ∧ x < x0 + w then
      buffer.getD ((y - y0).toNat * w + (x - x0).toNat) (g y x)
    else g y x

/-- The effect of `H5::DataSet::read` on a hyperslab selection with
`start = (y0, x0)` and `count = (h, w)`: the `h*w` selected samples,
row-major. -/
def hyperslabRead {α : Type} (x0 y0 : Int) (w h : Nat) (g : Grid α) :
    List α :=
  (List.range (h * w)).map (fun k => g (y0 + (k / w : Nat)) (x0 + (k % w : Nat)))

/-- `Raster.hpp`, `Raster::write` (lines 375-407): write the row-major
`buffer` into the hyperslab `slice = [x0, y0, dx, dy, ...]` of the stored
array. Throws `SliceSizeError` when the slice vector has fewer than 4
entries, or when `buffer.size() < count[0]*count[1]`. The counts are
nonnegative in every use (they are converted to the unsigned `hsize_t`). -/
def writeSliceT {α : Type} (slice : List Int) (buffer : List α) (g : Grid α) :
    Except RasterError (Grid α) :=
  match slice with
  | x0 :: y0 :: dx :: dy :: _ =>
    if buffer.length < dy.toNat * dx.toNat then .error .sliceSize
    else .ok (hyperslabWrite x0 y0 dx.toNat dy.toNat buffer g)
  | _ => .error .sliceSize

/-- `Raster.hpp`, `Raster::read` (lines 479-512): read the hyperslab
`slice = [x0, y0, dx, dy, ...]` into `buffer`. Throws `SliceSizeError`
when the slice vector has fewer than 4 entries; when
`buffer.size() < count[0]*count[1]` the buffer is resized (new C++ vector
elements are value-initialized, i.e. `default`); the read then fills the
first `totalSize` elements and leaves any surplus tail unchanged. -/
def readSliceT {α : Type} [Inhabited α] (slice : List Int) (buffer : List α)
    (g : Grid α) : Except RasterError (List α) :=
  match slice with
  | x0 :: y0 :: dx :: dy :: _ =>
    let totalSize := dy.toNat * dx.toNat
    let buf := if buffer.length < totalSize then
        buffer ++ List.replicate (totalSize - buffer.length) default
      else buffer
    .ok (hyperslabRead x0 y0 dx.toNat dy.toNat g ++ buf.drop totalSize)
  | _ => .error .sliceSize

/- ### The Raster entity and row-oriented I/O used by the image operations

All image-processing methods of `Raster.cpp` work through `read`/`write`
with one-row (or one-rectangle) slices on `vector<float>`/`vector<double>`
buffers; sample arithmetic is embedded over `ℚ`. -/
/-- A raster: a named 2D array of fixed dimensions. `get_nx`/`get_ny`
return the dataspace extents (nonnegative). `data y x` is the sample at
row `y`, column `x`. -/
structure Raster where
  nx : Nat
  ny : Nat
  data : Grid ℚ

/-- `read(slice, data)` with `slice = [x0, y, w, 1]`: one row segment of
`w` samples starting at column `x0` of row `y`. -/
def rowRead (r : Raster) (x0 y : Int) (w : Nat) : List ℚ :=
  (List.range w).map (fun j : Nat => r.data y (x0 + (j : Int)))

/-- `write(slice, buf)` with `slice = [x0, y, buf.length, 1]`: overwrite
one row segment. -/
def rowWrite (r : Raster) (x0 y : Int) (buf : List ℚ) : Raster :=
  { r with data := fun Y X =>
      if Y = y ∧ x0 ≤ X ∧ X < x0 + buf.length then
        buf.getD (X - x0).toNat (r.data Y X)
      else r.data Y X }

/-- `write(slice, buf)` with `slice = [x0, y0, w, h]` and `|buf| = w*h`:
overwrite a rectangle, row-major. -/
def rectWrite (r : Raster) (x0 y0 : Int) (w h : Nat) (buf : List ℚ) : Raster :=
  { r with data := hyperslabWrite x0 y0 w h buf r.data }

/-- A pending row write: `(x0, y, buf)` writes `buf` at columns
`[x0, x0+|buf|)` of row `y`. -/
abbrev RowWrite : Type := Int × Int × List ℚ

/-- Perform a sequence of row writes, in order. -/
def writeRows (r : Raster) (ws : List RowWrite) : Raster :=
  ws.foldl (fun acc wr => rowWrite acc wr.1 wr.2.1 wr.2.2) r

/-- `w` covers position `(Y, X)` when the row write `w` touches it. -/
def covers (wr : RowWrite) (Y X : Int) : Prop :=
  Y = wr.2.1 ∧ wr.1 ≤ X ∧ X < wr.1 + wr.2.2.length

instance (wr : RowWrite) (Y X : Int) : Decidable (covers wr Y X) := by
  unfold covers; infer_instance

/-- The value a covering row write puts at column `X`. -/
def valAt (wr : RowWrite) (X : Int) : ℚ :=
  wr.2.2.getD (X - wr.1).toNat 0

/- ### `Raster::set` (Raster.cpp lines 232-260) -/
/-- `Raster::set(slice, value)`: fill the rectangle
`slice = (x0, y0, dx, dy)` (a `long int[4]`) with `value`. Throws
`SliceSizeError` when `nx < x0 + dx` or `ny < y0 + dy`; otherwise builds a
`num = dx*dy` buffer holding `value` everywhere and writes it in one slice
write. -/
def Raster.set (r : Raster) (x0 y0 dx dy : Int) (value : Int) :
    Option RasterError × Raster :=
  if (r.nx : Int) < x0 + dx then (some .sliceSize, r)
  else if (r.ny : Int) < y0 + dy then (some .sliceSize, r)
  else
    (none, rectWrite r x0 y0 dx.toNat dy.toNat
      (List.replicate (dx.toNat * dy.toNat) (value : ℚ)))

/- ### `Raster::drawFilledCircle` (Raster.cpp lines 262-302) -/
/-- `slice[0] = x0 - radius` (C++ `double`→`long int` conversion truncates;
the value is nonnegative whenever the bounds checks passed, so truncation
is `floor`). -/
def circleBoxX (x0 : Int) (radius : ℚ) : Int := ((x0 : ℚ) - radius).floor

/-- `slice[1] = y0 - radius`. -/
def circleBoxY (y0 : Int) (radius : ℚ) : Int := ((y0 : ℚ) - radius).floor

/-- `slice[2] = slice[3] = 2 * radius` (nonnegative, truncated). -/
def circleBoxW (radius : ℚ) : Nat := ((2 : ℚ) * radius).floor.toNat

/-- `Raster::drawFilledCircle(x0, y0, radius, color)`: throws
`RadiusSizeError` when `radius < 0`; throws `RasterSizeError` when
`x0 - radius < 0`, `x0 + radius > nx`, `y0 - radius < 0` or
`y0 + radius > ny`; otherwise reads the bounding-box slice, overwrites
`data[y*w + x]` with `color` for every box position with
`dx*dx + dy*dy ≤ radius*radius` (where `dx = x - radius`,
`dy = y - radius`), and writes the box back. -/
def Raster.drawFilledCircle (r : Raster) (x0 y0 : Int) (radius color : ℚ) :
    Option RasterError × Raster :=
  if radius < 0 then (some .radiusSize, r)
  else if (x0 : ℚ) - radius < 0 ∨ (x0 : ℚ) + radius > (r.nx : ℚ) then
    (some .rasterSize, r)
  else if (y0 : ℚ) - radius < 0 ∨ (y0 : ℚ) + radius > (r.ny : ℚ) then
    (some .rasterSize, r)
  else
    let sx := circleBoxX x0 radius
    let sy := circleBoxY y0 radius
    let w := circleBoxW radius
    let dataIn := hyperslabRead sx sy w w r.data
    let dataOut := (List.range (w * w)).map (fun k =>
      let dx : ℚ := ((k % w : Nat) : ℚ) - radius
      let dy : ℚ := ((k / w : Nat) : ℚ) - radius
      if dx * dx + dy * dy ≤ radius * radius then color else dataIn.getD k 0)
    (none, rectWrite r sx sy w w dataOut)

/- ### Elementwise binary operations (Raster.cpp lines 1389-1487)

`add`, `subtract`, `multiply` and `divide` involve three raster objects
(`this`, `r2`, `ras_out`), so they are modelled over a store of named
rasters; every row read happens against the current store state. -/
/-- A store of named rasters (the enclosing Image, viewed as a name-to-array
map). -/
def Store (ι : Type) : Type := ι → Raster

/-- Updating one named raster. -/
def Store.update {ι : Type} [DecidableEq ι] (st : Store ι) (n : ι) (r : Raster) :
    Store ι :=
  fun m => if m = n then r else st m

/-- The shared row loop of `add`/`subtract`/`multiply`/`divide`: for each
line `i`, read row `i` of `self` into `bufferA` and of `r2` into `bufferB`,
combine them elementwise with `pixel` (the loop body `bufferA[j] ∘= bufferB[j]`),
and write the combined row to `rasOut`. -/
def binOpLoop {ι : Type} [DecidableEq ι] (pixel : ℚ → ℚ → ℚ)
    (self r2 rasOut : ι) (nx : Nat) (rows : List Nat) (st : Store ι) : Store ι :=
  rows.foldl (fun (s : Store ι) (i : Nat) =>
    s.update rasOut (rowWrite (s rasOut) 0 (i : Int)
      (List.zipWith pixel (rowRead (s self) 0 (i : Int) nx)
        (rowRead (s r2) 0 (i : Int) nx)))) st

/-- `Raster::add` (lines 1389-1405): `bufferA[j] += bufferB[j]`. Throws
`RasterSizeError` when `r2`'s dimensions differ from `this`'s. -/
def Store.add {ι : Type} [DecidableEq ι] (self r2 rasOut : ι) (st : Store ι) :
    Option RasterError × Store ι :=
  if (st self).nx ≠ (st r2).nx ∨ (st self).ny ≠ (st r2).ny then (some .rasterSize, st)
  else (none, binOpLoop (fun a b => a + b) self r2 rasOut (st self).nx
    (List.range (st self).ny) st)

/-- `Raster::subtract` (lines 1415-1431): `bufferA[j] -= bufferB[j]`. -/
def Store.subtract {ι : Type} [DecidableEq ι] (self r2 rasOut : ι) (st : Store ι) :
    Option RasterError × Store ι :=
  if (st self).nx ≠ (st r2).nx ∨ (st self).ny ≠ (st r2).ny then (some .rasterSize, st)
  else (none, binOpLoop (fun a b => a - b) self r2 rasOut (st self).nx
    (List.range (st self).ny) st)

/-- `Raster::multiply` (lines 1441-1457): `bufferA[j] *= bufferB[j]`. -/
def Store.multiply {ι : Type} [DecidableEq ι] (self r2 rasOut : ι) (st : Store ι) :
    Option RasterError × Store ι :=
  if (st self).nx ≠ (st r2).nx ∨ (st self).ny ≠ (st r2).ny then (some .rasterSize, st)
  else (none, binOpLoop (fun a b => a * b) self r2 rasOut (st self).nx
    (List.range (st self).ny) st)

/-- `Raster::divide` (lines 1467-1487): `bufferB[j] == 0` sends the output
sample to 255 ("divide by zero goes to max value"), otherwise
`bufferA[j] /= bufferB[j]`. -/
def Store.divide {ι : Type} [DecidableEq ι] (self r2 rasOut : ι) (st : Store ι) :
    Option RasterError × Store ι :=
  if (st self).nx ≠ (st r2).nx ∨ (st self).ny ≠ (st r2).ny then (some .rasterSize, st)
  else (none, binOpLoop (fun a b => if b = 0 then 255 else a / b) self r2 rasOut
    (st self).nx (List.range (st self).ny) st)

/- ### `Raster::gradientMask` (Raster.cpp lines 1234-1378) -/
/-- The 3×3 directional Sobel-like kernel selected by `mask ∈ {1..8}`
(Raster.cpp lines 1250-1343). The source computes this kernel but the
numeric pass below never reads it. `mask` outside 1..8 leaves the array
uninitialized (the range checks precede the switch). -/
def sobelKernel (mask : Int) : List (List Int) :=
  if mask = 1 then [[-1, -2, -1], [0, 0, 0], [1, 2, 1]]
  else if mask = 2 then [[1, 0, -1], [2, 0, -2], [1, 0, -1]]
  else if mask = 3 then [[1, 2, 1], [0, 0, 0], [-1, -2, -1]]
  else if mask = 4 then [[-1, 0, 1], [-2, 0, 2], [-1, 2, 1]]
  else if mask = 5 then [[0, -1, -2], [1, 0, -1], [2, 1, 0]]
  else if mask = 6 then [[-2, -1, 0], [-1, 0, 1], [0, 1, 2]]
  else if mask = 7 then [[2, 1, 0], [1, 0, -1], [0, -1, -2]]
  else if mask = 8 then [[0, 1, 2], [-1, 0, 1], [-2, -1, 0]]
  else []

/-- `double blurKernel[3][3] = {0.0625, 0.125, 0.0625, 0.125, 0.5, 0.125,
0.0625, 0.125, 0.0625}` (line 1345), row-major. -/
def blurKernel : List (List ℚ) :=
  [[1/16, 1/8, 1/16], [1/8, 1/2, 1/8], [1/16, 1/8, 1/16]]

/-- The inner accumulation of `gradientMask`: 9 terms
`data[j] * blurKernel[mFlipped][nFlipped]`, each using only the pixel's
own value `data[j]`. -/
def blurPixel (v : ℚ) : ℚ :=
  (List.range 3).foldl (fun acc m =>
    (List.range 3).foldl (fun acc2 n =>
      acc2 + v * ((blurKernel.getD (3 - 1 - m) []).getD (3 - 1 - n) 0)) acc) 0

/-- `Raster::gradientMask(rasOut, mask)`: checks `mask ∈ [1, 8]`
(`IntegerParameterError`), then the output dimensions (`RasterSizeError`),
selects the directional kernel — which the numeric pass never uses — and
then overwrites every output row with the `blurKernel` pass applied to the
corresponding input row. -/
def Raster.gradientMask (inp rasOut : Raster) (mask : Int) :
    Option RasterError × Raster :=
  if mask < 1 then (some .integerParameter, rasOut)
  else if mask > 8 then (some .integerParameter, rasOut)
  else if inp.nx ≠ rasOut.nx then (some .rasterSize, rasOut)
  else if inp.ny ≠ rasOut.ny then (some .rasterSize, rasOut)
  else
    let kernel := sobelKernel mask
    (none, writeRows rasOut ((List.range inp.ny).map (fun i : Nat =>
      ((0 : Int), ((i : Nat) : Int),
        (rowRead inp 0 ((i : Nat) : Int) inp.nx).map blurPixel))))

/- ### `Raster::downsample` (Raster.cpp lines 815-890) -/
/-- The 5×5 kernel (sum 400, normalized): `{1,4,6,4,1} ⊗ {1,4,6,4,1} / 400`
(lines 826-831). -/
def gaussianKernel : List (List ℚ) :=
  [[1/400, 4/400, 6/400, 4/400, 1/400],
   [4/400, 16/400, 24/400, 16/400, 4/400],
   [6/400, 24/400, 36/400, 24/400, 6/400],
   [4/400, 16/400, 24/400, 16/400, 4/400],
   [1/400, 4/400, 6/400, 4/400, 1/400]]

/-- The inner accumulation of `downsample`'s convolution pass (lines
847-861): 25 terms `data[j] * gaussianKernel[mFlipped][nFlipped]`, each
using only the pixel's own value `data[j]` — no neighbouring sample is
gathered. -/
def convPixel (v : ℚ) : ℚ :=
  (List.range 5).foldl (fun acc m =>
    (List.range 5).foldl (fun acc2 n =>
      acc2 + v * ((gaussianKernel.getD (5 - 1 - m) []).getD (5 - 1 - n) 0)) acc) 0

/-- The in-place convolution pass of `downsample` (lines 844-863): for each
row in `rows`, read the row, replace each sample by its 25-term kernel
accumulation, and write the row back to the same raster. -/
def convPass (nx : Nat) (rows : List Nat) (r : Raster) : Raster :=
  rows.foldl (fun r i =>
    rowWrite r 0 ((i : Nat) : Int)
      ((rowRead r 0 ((i : Nat) : Int) nx).map convPixel)) r

/-- `Raster::downsample(rasOut)`: fails with `RasterSizeError` unless the
output dimensions are exactly `(nx/2, ny/2)` (integer division). Then pass
one convolves every row in place (writing back to `this`); pass two visits
the rows with odd 0-based index (`for i = 1; i < ny; i += 2`, exactly the
rows `2k+1` for `k < ny/2`), keeps the samples with odd 0-based column
index (`dataOut[c] = data[2c+1]` for `c < nx/2`, filling the whole
`nx/2`-sample buffer), and writes them as row `k` of the output. Returns
(error, this, rasOut). -/
def Raster.downsample (self rasOut : Raster) :
    Option RasterError × Raster × Raster :=
  if self.nx / 2 ≠ rasOut.nx then (some .rasterSize, self, rasOut)
  else if self.ny / 2 ≠ rasOut.ny then (some .rasterSize, self, rasOut)
  else
    let selfC := convPass self.nx (List.range self.ny) self
    (none, selfC, writeRows rasOut ((List.range (self.ny / 2)).map (fun k : Nat =>
      ((0 : Int), ((k : Nat) : Int),
        (List.range (self.nx / 2)).map (fun c : Nat =>
          selfC.data ((2 * k + 1 : Nat) : Int) ((2 * c + 1 : Nat) : Int))))))

/-- `std::vector::operator[]` assignment `l[i] = v`: well-defined only for
`i < size()`; an out-of-range index is undefined behaviour, modelled as
`outOfBounds`. -/
def vecSet {α : Type} (l : List α) (i : Nat) (v : α) :
    Except RasterError (List α) :=
  if i < l.length then .ok (l.set i v) else .error .outOfBounds

/-- The dimension check at the top of `downsample` (lines 821-822), as run
when the pyramid loop downsamples a level of dimensions `(nxIn, nyIn)`
into a level of dimensions `(nxOut, nyOut)`. -/
def downsampleCheck (nxIn nyIn nxOut nyOut : Nat) : Except RasterError Unit :=
  if nxIn / 2 ≠ nxOut then .error .rasterSize
  else if nyIn / 2 ≠ nyOut then .error .rasterSize
  else .ok ()

/-- One iteration of the pyramid loop (`for (int i = 2; i <= n; ++i)`,
lines 906-909): assign `output[i] = new Raster(nx / pow(2, i),
ny / pow(2, i))` (the `double` quotient truncates, i.e. floor), then
`output[i-1]->downsample(output[i])` whose dimension check compares the
level `i-1` dimensions halved with the level `i` dimensions. -/
def pyramidStep (nx ny : Nat) (acc : List (Nat × Nat)) (i : Nat) :
    Except RasterError (List (Nat × Nat)) :=
  (vecSet acc i (nx / 2 ^ i, ny / 2 ^ i)).bind (fun acc' =>
    (downsampleCheck (nx / 2 ^ (i - 1)) (ny / 2 ^ (i - 1))
      (nx / 2 ^ i) (ny / 2 ^ i)).bind (fun _ => .ok acc'))

/-- `Raster::gaussianPyramid(img, n)` (lines 892-914), tracking the
dimensions of every level. Throws `IntegerParameterError` if `n < 1`.
Allocates `vector<Raster *> output(n)` — a vector of size `n`, not `n+1` —
then assigns `output[0] = this`, `output[1] = new Raster(nx/2, ny/2)`,
downsamples into it, and runs `pyramidStep` for `i = 2 .. n` inclusive. -/
def gaussianPyramid (nx ny : Nat) (n : Int) :
    Except RasterError (List (Nat × Nat)) :=
  if n < 1 then .error .integerParameter
  else
    (vecSet (List.replicate n.toNat ((0 : Nat), (0 : Nat))) 0 (nx, ny)).bind (fun o0 =>
    (vecSet o0 1 (nx / 2, ny / 2)).bind (fun o1 =>
    (downsampleCheck nx ny (nx / 2) (ny / 2)).bind (fun _ =>
    ((List.range (n.toNat - 1)).map (fun j => j + 2)).foldlM (pyramidStep nx ny) o1)))

/-- The min/max scan of one row (lines 1140-1147): `min = data[0];
max = data[0];` then for each sample `if (d < min) min = d; else if
(d > max) max = d`. -/
def scanRowMinMax (row : List ℚ) : ℚ × ℚ :=
  row.foldl (fun p d => if d < p.1 then (d, p.2) else if d > p.2 then (p.1, d) else p)
    (row.headD 0, row.headD 0)

/-- The `min`/`max` variables midpointFilter holds after the ySmall loop of
the tile at tile coordinates `(x, y)`: they are re-seeded from `data[0]`
on every row, so the loop's final value is the scan of the tile's LAST row
only. -/
def midpointTileStat (inp : Raster) (nN x y : Nat) : ℚ × ℚ :=
  (List.range nN).foldl (fun _ s =>
    scanRowMinMax (rowRead inp ((x * nN : Nat) : Int) ((y * nN + s : Nat) : Int) nN))
    (0, 0)

/-- `Raster::midpointFilter(rasOut, n)`: window checks (`3 ≤ n ≤ 11`, odd),
dimension checks, then for every complete `n×n` tile (floor counts,
trailing partial tiles not visited) computes `(min + max) / 2` from the
scan state left by the row loop and broadcasts it to every sample of the
tile in `rasOut`. -/
def Raster.midpointFilter (inp rasOut : Raster) (n : Int) :
    Option RasterError × Raster :=
  if n < 3 then (some .integerParameter, rasOut)
  else if n > 11 then (some .integerParameter, rasOut)
  else if n % 2 = 0 then (some .integerParameter, rasOut)
  else if inp.nx ≠ rasOut.nx then (some .rasterSize, rasOut)
  else if inp.ny ≠ rasOut.ny then (some .rasterSize, rasOut)
  else
    let nN := n.toNat
    (none, writeRows rasOut ((List.range (inp.ny / nN)).flatMap (fun y =>
      (List.range (inp.nx / nN)).flatMap (fun x =>
        (List.range nN).map (fun s =>
          (((x * nN : Nat) : Int), ((y * nN + s : Nat) : Int),
            List.replicate nN (((midpointTileStat inp nN x y).1 +
              (midpointTileStat inp nN x y).2) / 2)))))))

/-- All `n*n` samples of the tile with tile coordinates `(x, y)`,
row-major — the claim's "all n*n samples of that tile". -/
def tileSamples (inp : Raster) (nN x y : Nat) : List ℚ :=
  (List.range nN).flatMap (fun s =>
    rowRead inp ((x * nN : Nat) : Int) ((y * nN + s : Nat) : Int) nN)

/-- The minimum over all samples of a tile (the claim's `localMin`). -/
def tileMin (inp : Raster) (nN x y : Nat) : ℚ :=
  (tileSamples inp nN x y).foldl min ((tileSamples inp nN x y).headD 0)

/-- The maximum over all samples of a tile (the claim's `localMax`). -/
def tileMax (inp : Raster) (nN x y : Nat) : ℚ :=
  (tileSamples inp nN x y).foldl max ((tileSamples inp nN x y).headD 0)

/- ### `Raster::autoLocalThresh` (Raster.cpp lines 527-592) -/
/-- The min/max pass over one sector (lines 557-573): `min` is initialized
to `100000` ("assign large num to min to init"), `max` to `0`, then every
sample is compared with two independent `if`s. -/
def sectorScan (inp : Raster) (psX psY sx sy : Nat) : ℚ × ℚ :=
  (List.range psY).foldl (fun p i =>
    (rowRead inp ((sx * psX : Nat) : Int) ((sy * psY + i : Nat) : Int) psX).foldl
      (fun q d => (if d < q.1 then d else q.1, if d > q.2 then d else q.2)) p)
    (100000, 0)

/-- `Raster::autoLocalThresh(rasterOut, partitions)`: dimension checks
(`RasterSizeError`), partition checks (`PartitionError` unless
`1 ≤ partitions ≤ 150`), then per sector `(x, y)` of size
`(nx/partitions) × (ny/partitions)`: compute min/max with `sectorScan`,
set `threshhold = (max + min) / 3`, and write each sector row re-read from
the input with every sample below the threshold zeroed. -/
def Raster.autoLocalThresh (inp rasOut : Raster) (partitions : Int) :
    Option RasterError × Raster :=
  if inp.nx ≠ rasOut.nx then (some .rasterSize, rasOut)
  else if inp.ny ≠ rasOut.ny then (some .rasterSize, rasOut)
  else if partitions ≤ 0 then (some .partition, rasOut)
  else if partitions > 150 then (some .partition, rasOut)
  else
    let p := partitions.toNat
    let psX := inp.nx / p
    let psY := inp.ny / p
    (none, writeRows rasOut ((List.range p).flatMap (fun y =>
      (List.range p).flatMap (fun x =>
        (List.range psY).map (fun i =>
          (((x * psX : Nat) : Int), ((y * psY + i : Nat) : Int),
            (rowRead inp ((x * psX : Nat) : Int) ((y * psY + i : Nat) : Int) psX).map
              (fun d => if d < ((sectorScan inp psX psY x y).2 +
                (sectorScan inp psX psY x y).1) / 3 then 0 else d)))))))

/-- All samples of the sector `(sx, sy)`, row-major. -/
def sectorSamples (inp : Raster) (psX psY sx sy : Nat) : List ℚ :=
  (List.range psY).flatMap (fun i =>
    rowRead inp ((sx * psX : Nat) : Int) ((sy * psY + i : Nat) : Int) psX)

/-- The minimum over a sector's samples (the claim's "min"). -/
def sectorMin (inp : Raster) (psX psY sx sy : Nat) : ℚ :=
  (sectorSamples inp psX psY sx sy).foldl min
    ((sectorSamples inp psX psY sx sy).headD 0)

/-- The maximum over a sector's samples (the claim's "max"). -/
def sectorMax (inp : Raster) (psX psY sx sy : Nat) : ℚ :=
  (sectorSamples inp psX psY sx sy).foldl max
    ((sectorSamples inp psX psY sx sy).headD 0)

/- ### generic list helpers -/
theorem getD_map_range {α : Type} (w k : Nat) (f : Nat → α) (d : α) :
    ((List.range w).map f).getD k d = if k < w then f k else d := by
  by_cases h : k < w
  · rw [if_pos h, List.getD_eq_getElem?_getD, List.getElem?_map, List.getElem?_range h]
    rfl
  · rw [if_neg h, List.getD_eq_getElem?_getD, List.getElem?_map]
    rw [List.getElem?_eq_none (by simpa using not_lt.mp h)]
    rfl

theorem getD_irrel {α : Type} (l : List α) (i : Nat) (h : i < l.length) (d d' : α) :
    l.getD i d = l.getD i d' := by
  rw [List.getD_eq_getElem?_getD, List.getD_eq_getElem?_getD, List.getElem?_eq_getElem h]
  rfl

theorem getD_replicate {α : Type} (n k : Nat) (v d : α) (h : k < n) :
    (List.replicate n v).getD k d = v := by
  rw [List.getD_eq_getElem?_getD, List.getElem?_eq_getElem (by simpa using h)]
  simp

theorem getD_zipWith {α : Type} (f : α → α → α) (l1 l2 : List α) (k : Nat)
    (h1 : k < l1.length) (h2 : k < l2.length) (d : α) :
    (List.zipWith f l1 l2).getD k d = f (l1.getD k d) (l2.getD k d) := by
  rw [List.getD_eq_getElem?_getD, List.getElem?_zipWith,
    List.getElem?_eq_getElem h1, List.getElem?_eq_getElem h2,
    List.getD_eq_getElem?_getD, List.getD_eq_getElem?_getD,
    List.getElem?_eq_getElem h1, List.getElem?_eq_getElem h2]
  rfl

theorem idx_lt {a b w h : Nat} (ha : a < h) (hb : b < w) : a * w + b < h * w :=
  calc a * w + b < a * w + w := by omega
  _ = (a + 1) * w := by ring
  _ ≤ h * w := Nat.mul_le_mul_right w ha

/-- Core of the round-trip: reading back the hyperslab just written returns
the written buffer. -/
theorem hyperslabRead_hyperslabWrite {α : Type} (x0 y0 : Int) (w h : Nat)
    (B : List α) (g : Grid α) (hw : 0 < w) (hB : B.length = w * h) :
    hyperslabRead x0 y0 w h (hyperslabWrite x0 y0 w h B g) = B := by
  apply List.ext_getElem
  · simp only [hyperslabRead, List.length_map, List.length_range, hB]
    exact Nat.mul_comm h w
  intro k hk1 hk2
  have hk : k < h * w := by
    simpa only [hyperslabRead, List.length_map, List.length_range] using hk1
  simp only [hyperslabRead, List.getElem_map, List.getElem_range, hyperslabWrite]
  have hdiv : k / w < h := Nat.div_lt_of_lt_mul (by omega)
  have hmod : k % w < w := Nat.mod_lt _ hw
  have hdiv' : ((k / w : Nat) : Int) < (h : Int) := by exact_mod_cast hdiv
  have hmod' : ((k % w : Nat) : Int) < (w : Int) := by exact_mod_cast hmod
  have hdiv0 : (0 : Int) ≤ ((k / w : Nat) : Int) := Int.natCast_nonneg _
  have hmod0 : (0 : Int) ≤ ((k % w : Nat) : Int) := Int.natCast_nonneg _
  rw [if_pos ⟨by omega, by omega, by omega, by omega⟩]
  have e1 : y0 + ((k / w : Nat) : Int) - y0 = ((k / w : Nat) : Int) := by ring
  have e2 : x0 + ((k % w : Nat) : Int) - x0 = ((k % w : Nat) : Int) := by ring
  rw [e1, e2, Int.toNat_natCast, Int.toNat_natCast]
  have hidx : k / w * w + k % w = k := by
    rw [Nat.mul_comm]; exact Nat.div_add_mod k w
  rw [hidx]
  rw [List.getD_eq_getElem?_getD, List.getElem?_eq_getElem (by omega)]
  rfl

/-- C1: slice write followed by slice read round-trips. For every raster
grid (of any of the three supported element types), every slice
`S = (x0, y0, w, h)` with `w > 0`, `h > 0`, `x0 + w ≤ nx`, `y0 + h ≤ ny`,
and every buffer `B` with `|B| = w*h`, `write(S, B)` succeeds and a
subsequent `read(S, B')` (into a fresh buffer) returns exactly `B`. -/
theorem write_read_roundtrip (t : RasterType) (g : Grid t.carrier)
    (nx ny : Nat) (x0 y0 : Int) (w h : Nat) (B : List t.carrier)
    (hw : 0 < w) (hh : 0 < h)
    (hx : x0 + w ≤ nx) (hy : y0 + h ≤ ny)
    (hB : B.length = w * h) :
    (writeSliceT [x0, y0, (w : Int), (h : Int)] B g).bind
      (readSliceT [x0, y0, (w : Int), (h : Int)] []) = .ok B := by
  have hwt : ((w : Int)).toNat = w := by simp
  have hht : ((h : Int)).toNat = h := by simp
  have hwrite : writeSliceT [x0, y0, (w : Int), (h : Int)] B g
      = .ok (hyperslabWrite x0 y0 w h B g) := by
    simp only [writeSliceT, hwt, hht]
    rw [if_neg (by rw [hB, Nat.mul_comm w h]; exact lt_irrefl _)]
  rw [hwrite]
  show readSliceT [x0, y0, (w : Int), (h : Int)] []
      (hyperslabWrite x0 y0 w h B g) = .ok B
  simp only [readSliceT, hwt, hht, List.length_nil]
  rw [if_pos (by simpa using Nat.mul_pos hh hw)]
  simp only [List.nil_append, List.length_replicate]
  rw [List.drop_eq_nil_of_le (by simp), List.append_nil]
  exact congrArg Except.ok (hyperslabRead_hyperslabWrite x0 y0 w h B g hw hB)

/-- Witness for C1 at a concrete input: a 2×2 slice of a REAL32 raster,
written with `[1, 2, 3, 4]` at offset `(1, 0)` of a 3×2 grid, reads back
exactly. -/
theorem write_read_roundtrip_witness :
    (writeSliceT [(1 : Int), 0, 2, 2] [(1 : ℚ), 2, 3, 4] (fun _ _ => (0 : ℚ))).bind
      (readSliceT [(1 : Int), 0, 2, 2] []) = .ok [(1 : ℚ), 2, 3, 4] :=
  write_read_roundtrip .REAL32 (fun _ _ => (0 : ℚ)) 3 2 1 0 2 2 [1, 2, 3, 4]
    (by decide) (by decide) (by decide) (by decide) (by decide)

theorem rowWrite_nx (r : Raster) (x0 y : Int) (buf : List ℚ) :
    (rowWrite r x0 y buf).nx = r.nx := rfl

theorem rowWrite_ny (r : Raster) (x0 y : Int) (buf : List ℚ) :
    (rowWrite r x0 y buf).ny = r.ny := rfl

theorem rowWrite_data_of_not_covered (r : Raster) (wr : RowWrite) (Y X : Int)
    (h : ¬ covers wr Y X) :
    (rowWrite r wr.1 wr.2.1 wr.2.2).data Y X = r.data Y X := by
  simp only [rowWrite]
  rw [if_neg (by intro hc; exact h ⟨hc.1, hc.2.1, hc.2.2⟩)]

theorem rowWrite_data_of_covered (r : Raster) (wr : RowWrite) (Y X : Int)
    (h : covers wr Y X) :
    (rowWrite r wr.1 wr.2.1 wr.2.2).data Y X = valAt wr X := by
  simp only [rowWrite]
  rw [if_pos ⟨h.1, h.2.1, h.2.2⟩]
  exact getD_irrel _ _ (by rcases h with ⟨h1, h2, h3⟩; omega) _ _

theorem writeRows_nx (r : Raster) (ws : List RowWrite) :
    (writeRows r ws).nx = r.nx := by
  induction ws generalizing r with
  | nil => rfl
  | cons wr tl ih => simpa [writeRows] using ih (rowWrite r wr.1 wr.2.1 wr.2.2)

theorem writeRows_ny (r : Raster) (ws : List RowWrite) :
    (writeRows r ws).ny = r.ny := by
  induction ws generalizing r with
  | nil => rfl
  | cons wr tl ih => simpa [writeRows] using ih (rowWrite r wr.1 wr.2.1 wr.2.2)

/-- Positions touched by no pending write keep their value. -/
theorem writeRows_data_of_not_covered (ws : List RowWrite) (r : Raster)
    (Y X : Int) (h : ∀ wr ∈ ws, ¬ covers wr Y X) :
    (writeRows r ws).data Y X = r.data Y X := by
  induction ws generalizing r with
  | nil => rfl
  | cons wr tl ih =>
    show (writeRows (rowWrite r wr.1 wr.2.1 wr.2.2) tl).data Y X = r.data Y X
    rw [ih _ (fun w hw => h w (List.mem_cons_of_mem _ hw))]
    exact rowWrite_data_of_not_covered r wr Y X (h wr (List.mem_cons_self _ _))

/-- If some pending write covers `(Y, X)` and all covering writes agree on
the value `v`, the final raster holds `v` there. -/
theorem writeRows_data_of_covered (ws : List RowWrite) (r : Raster)
    (Y X : Int) (v : ℚ)
    (hex : ∃ wr ∈ ws, covers wr Y X)
    (hall : ∀ wr ∈ ws, covers wr Y X → valAt wr X = v) :
    (writeRows r ws).data Y X = v := by
  induction ws generalizing r with
  | nil => rcases hex with ⟨wr, hmem, _⟩; cases hmem
  | cons wr tl ih =>
    show (writeRows (rowWrite r wr.1 wr.2.1 wr.2.2) tl).data Y X = v
    by_cases htl : ∃ w ∈ tl, covers w Y X
    · exact ih _ htl (fun w hw hc => hall w (List.mem_cons_of_mem _ hw) hc)
    · push_neg at htl
      rw [writeRows_data_of_not_covered tl _ Y X htl]
      rcases hex with ⟨w0, hmem, hc0⟩
      rcases List.mem_cons.mp hmem with h0 | h0
      · subst h0
        rw [rowWrite_data_of_covered r w0 Y X hc0]
        exact hall w0 (List.mem_cons_self _ _) hc0
      · exact absurd hc0 (htl w0 h0)

/-- C6: `set(S, value)` with a slice inside the raster's bounds sets every
sample inside `S` to `value` and leaves every sample outside `S`
unchanged; a slice with `x0 + w > nx` or `y0 + h > ny` raises
`SliceSizeError` (and the raster is untouched). -/
theorem set_spec (r : Raster) (x0 y0 dx dy : Int) (value : Int) :
    (((r.nx : Int) < x0 + dx ∨ (r.ny : Int) < y0 + dy) →
      r.set x0 y0 dx dy value = (some .sliceSize, r)) ∧
    (x0 + dx ≤ (r.nx : Int) → y0 + dy ≤ (r.ny : Int) →
      (r.set x0 y0 dx dy value).1 = none ∧
      (∀ Y X : Int, x0 ≤ X → X < x0 + dx → y0 ≤ Y → Y < y0 + dy →
        ((r.set x0 y0 dx dy value).2).data Y X = (value : ℚ)) ∧
      (∀ Y X : Int, ¬ (x0 ≤ X ∧ X < x0 + dx ∧ y0 ≤ Y ∧ Y < y0 + dy) →
        ((r.set x0 y0 dx dy value).2).data Y X = r.data Y X)) := by
  constructor
  · intro herr
    unfold Raster.set
    rcases herr with h1 | h1
    · rw [if_pos h1]
    · by_cases h2 : (r.nx : Int) < x0 + dx
      · rw [if_pos h2]
      · rw [if_neg h2, if_pos h1]
  · intro hx hy
    unfold Raster.set
    rw [if_neg (by omega), if_neg (by omega)]
    refine ⟨rfl, ?_, ?_⟩
    · intro Y X hX1 hX2 hY1 hY2
      have hdx : (0:Int) < dx := by omega
      have hdy : (0:Int) < dy := by omega
      show hyperslabWrite x0 y0 dx.toNat dy.toNat _ r.data Y X = _
      unfold hyperslabWrite
      rw [if_pos ⟨hY1, by omega, hX1, by omega⟩]
      exact getD_replicate _ _ _ _
        (lt_of_lt_of_eq (idx_lt (h := dy.toNat) (by omega) (by omega))
          (Nat.mul_comm _ _))
    · intro Y X hout
      show hyperslabWrite x0 y0 dx.toNat dy.toNat _ r.data Y X = _
      unfold hyperslabWrite
      rw [if_neg (by intro hc; exact hout ⟨hc.2.2.1, by omega, hc.1, by omega⟩)]

/-- Witness for C6 on the spec's scenario shape: a 200×200 raster,
`set([20,20,4,4], 900)`; the sample at (20,20) becomes 900 and the sample
at (19,20) is unchanged. -/
theorem set_spec_witness :
    ((⟨200, 200, fun _ _ => 0⟩ : Raster).set 20 20 4 4 900).1 = none ∧
    (((⟨200, 200, fun _ _ => 0⟩ : Raster).set 20 20 4 4 900).2).data 20 20 = 900 ∧
    (((⟨200, 200, fun _ _ => 0⟩ : Raster).set 20 20 4 4 900).2).data 20 19 = 0 := by
  have h := set_spec (⟨200, 200, fun _ _ => 0⟩ : Raster) 20 20 4 4 900
  refine ⟨(h.2 (by decide) (by decide)).1, ?_, ?_⟩
  · exact (h.2 (by decide) (by decide)).2.1 20 20 (by decide) (by decide)
      (by decide) (by decide)
  · exact (h.2 (by decide) (by decide)).2.2 20 19 (by decide)

/-- C9: `drawFilledCircle` raises `RadiusSizeError` for `radius < 0`,
raises `RasterSizeError` when the circle's bounding box leaves the raster,
and otherwise sets exactly the samples of the bounding-box slice with
`dx*dx + dy*dy ≤ radius*radius` (`dx`, `dy` the offsets of the sample from
the box position of the centre, i.e. `x - radius`, `y - radius`) to
`color`, leaving all other samples at their prior values. -/
theorem drawFilledCircle_spec (r : Raster) (x0 y0 : Int) (radius color : ℚ) :
    (radius < 0 → r.drawFilledCircle x0 y0 radius color = (some .radiusSize, r)) ∧
    (0 ≤ radius →
      ((x0 : ℚ) - radius < 0 ∨ (x0 : ℚ) + radius > (r.nx : ℚ) ∨
       (y0 : ℚ) - radius < 0 ∨ (y0 : ℚ) + radius > (r.ny : ℚ)) →
      r.drawFilledCircle x0 y0 radius color = (some .rasterSize, r)) ∧
    (0 ≤ radius →
      ¬ ((x0 : ℚ) - radius < 0) → ¬ ((x0 : ℚ) + radius > (r.nx : ℚ)) →
      ¬ ((y0 : ℚ) - radius < 0) → ¬ ((y0 : ℚ) + radius > (r.ny : ℚ)) →
      (r.drawFilledCircle x0 y0 radius color).1 = none ∧
      (∀ x y : Nat, x < circleBoxW radius → y < circleBoxW radius →
        ((r.drawFilledCircle x0 y0 radius color).2).data
            (circleBoxY y0 radius + (y : Int)) (circleBoxX x0 radius + (x : Int)) =
          if ((x : ℚ) - radius) * ((x : ℚ) - radius) +
             ((y : ℚ) - radius) * ((y : ℚ) - radius) ≤ radius * radius
          then color
          else r.data (circleBoxY y0 radius + (y : Int)) (circleBoxX x0 radius + (x : Int))) ∧
      (∀ Y X : Int,
        ¬ (circleBoxY y0 radius ≤ Y ∧ Y < circleBoxY y0 radius + (circleBoxW radius : Int) ∧
           circleBoxX x0 radius ≤ X ∧ X < circleBoxX x0 radius + (circleBoxW radius : Int)) →
        ((r.drawFilledCircle x0 y0 radius color).2).data Y X = r.data Y X)) := by
  refine ⟨?_, ?_, ?_⟩
  · intro h
    unfold Raster.drawFilledCircle
    rw [if_pos h]
  · intro h0 herr
    unfold Raster.drawFilledCircle
    rw [if_neg (not_lt.mpr h0)]
    by_cases hx : (x0 : ℚ) - radius < 0 ∨ (x0 : ℚ) + radius > (r.nx : ℚ)
    · rw [if_pos hx]
    · rw [if_neg hx]
      rw [if_pos (by tauto)]
  · intro h0 h1 h2 h3 h4
    unfold Raster.drawFilledCircle
    rw [if_neg (not_lt.mpr h0), if_neg (by tauto), if_neg (by tauto)]
    refine ⟨rfl, ?_, ?_⟩
    · intro x y hx hy
      have hw : 0 < circleBoxW radius := by omega
      show hyperslabWrite _ _ _ _ _ r.data _ _ = _
      unfold hyperslabWrite
      rw [if_pos ⟨by omega, by omega, by omega, by omega⟩]
      have ey : (circleBoxY y0 radius + (y : Int) - circleBoxY y0 radius).toNat = y := by omega
      have ex : (circleBoxX x0 radius + (x : Int) - circleBoxX x0 radius).toNat = x := by omega
      rw [ey, ex]
      rw [getD_irrel _ _ (by
        simp only [List.length_map, List.length_range]
        exact lt_of_lt_of_eq (idx_lt hy hx) (Nat.mul_comm _ _)) _ 0]
      rw [getD_map_range]
      rw [if_pos (lt_of_lt_of_eq (idx_lt hy hx) (Nat.mul_comm _ _))]
      have emod : (y * circleBoxW radius + x) % circleBoxW radius = x :=
        by rw [Nat.add_comm, Nat.add_mul_mod_self_right]; exact Nat.mod_eq_of_lt hx
      have ediv : (y * circleBoxW radius + x) / circleBoxW radius = y := by
        rw [Nat.add_comm, Nat.add_mul_div_right _ _ hw, Nat.div_eq_of_lt hx]; omega
      rw [emod, ediv]
      by_cases hcond : ((x : ℚ) - radius) * ((x : ℚ) - radius) +
          ((y : ℚ) - radius) * ((y : ℚ) - radius) ≤ radius * radius
      · rw [if_pos hcond, if_pos hcond]
      · rw [if_neg hcond, if_neg hcond]
        unfold hyperslabRead
        rw [getD_map_range, if_pos (lt_of_lt_of_eq (idx_lt hy hx) (Nat.mul_comm _ _))]
        rw [emod, ediv]
    · intro Y X hout
      show hyperslabWrite _ _ _ _ _ r.data _ _ = _
      unfold hyperslabWrite
      rw [if_neg (by intro hc; exact hout ⟨hc.1, hc.2.1, hc.2.2.1, hc.2.2.2⟩)]

/-- Witness for C9 on the spec's scenario: `drawFilledCircle(20, 20, 5, 100)`
on a zero-filled 200×200 raster; no error is raised, the box is
`[15, 15, 10, 10]`, its centre sample becomes 100 and its corner sample
stays 0. -/
theorem drawFilledCircle_spec_witness :
    ((⟨200, 200, fun _ _ => 0⟩ : Raster).drawFilledCircle 20 20 5 100).1 = none ∧
    (((⟨200, 200, fun _ _ => 0⟩ : Raster).drawFilledCircle 20 20 5 100).2).data
      (circleBoxY 20 5 + ((5 : Nat) : Int)) (circleBoxX 20 5 + ((5 : Nat) : Int)) = 100 ∧
    (((⟨200, 200, fun _ _ => 0⟩ : Raster).drawFilledCircle 20 20 5 100).2).data
      (circleBoxY 20 5 + ((0 : Nat) : Int)) (circleBoxX 20 5 + ((0 : Nat) : Int)) = 0 := by
  have h := (drawFilledCircle_spec (⟨200, 200, fun _ _ => 0⟩ : Raster) 20 20 5 100).2.2
    (by norm_num) (by norm_num) (by norm_num) (by norm_num) (by norm_num)
  have hW : circleBoxW 5 = 10 := by
    norm_num [circleBoxW, Rat.floor]
    rfl
  refine ⟨h.1, ?_, ?_⟩
  · have := h.2.1 5 5 (by rw [hW]; omega) (by rw [hW]; omega)
    rw [this, if_pos (by norm_num)]
  · have := h.2.1 0 0 (by rw [hW]; omega) (by rw [hW]; omega)
    rw [this, if_neg (by norm_num)]

theorem Store.update_same {ι : Type} [DecidableEq ι] (st : Store ι) (n : ι)
    (r : Raster) : st.update n r n = r := by
  simp [Store.update]

theorem Store.update_ne {ι : Type} [DecidableEq ι] (st : Store ι) (n m : ι)
    (r : Raster) (h : m ≠ n) : st.update n r m = st m := by
  simp [Store.update, h]

theorem Store.update_update {ι : Type} [DecidableEq ι] (st : Store ι) (n : ι)
    (r1 r2 : Raster) : (st.update n r1).update n r2 = st.update n r2 := by
  funext m
  by_cases h : m = n <;> simp [Store.update, h]

/-- The row loop only ever updates `rasOut`. -/
theorem binOpLoop_frame {ι : Type} [DecidableEq ι] (pixel : ℚ → ℚ → ℚ)
    (self r2 rasOut : ι) (nx : Nat) (rows : List Nat) (st : Store ι)
    (c : ι) (hc : c ≠ rasOut) :
    binOpLoop pixel self r2 rasOut nx rows st c = st c := by
  induction rows generalizing st with
  | nil => rfl
  | cons i tl ih =>
    show binOpLoop pixel self r2 rasOut nx tl _ c = _
    rw [ih]
    exact Store.update_ne _ _ _ _ hc

/-- With `self` and `r2` distinct from `rasOut`, the row loop equals one
batched sequence of row writes on `rasOut`, all computed from the initial
store. -/
theorem binOpLoop_eq_writeRows {ι : Type} [DecidableEq ι] (pixel : ℚ → ℚ → ℚ)
    (self r2 rasOut : ι) (nx : Nat) (rows : List Nat) (st : Store ι)
    (hself : self ≠ rasOut) (hr2 : r2 ≠ rasOut) :
    binOpLoop pixel self r2 rasOut nx rows st =
      st.update rasOut (writeRows (st rasOut) (rows.map (fun i : Nat =>
        ((0 : Int), ((i : Nat) : Int),
          List.zipWith pixel (rowRead (st self) 0 ((i : Nat) : Int) nx)
            (rowRead (st r2) 0 ((i : Nat) : Int) nx))))) := by
  induction rows generalizing st with
  | nil =>
    show st = _
    funext m
    by_cases h : m = rasOut
    · subst h; rw [Store.update_same]; rfl
    · rw [Store.update_ne _ _ _ _ h]
  | cons i tl ih =>
    show binOpLoop pixel self r2 rasOut nx tl
        (st.update rasOut (rowWrite (st rasOut) 0 (i : Int)
          (List.zipWith pixel (rowRead (st self) 0 (i : Int) nx)
            (rowRead (st r2) 0 (i : Int) nx)))) = _
    rw [ih]
    rw [Store.update_ne _ _ _ _ hself, Store.update_ne _ _ _ _ hr2,
      Store.update_same, Store.update_update]
    rfl

/-- Value of the batched loop on `rasOut` at an in-range position. -/
theorem binOpLoop_out_data {ι : Type} [DecidableEq ι] (pixel : ℚ → ℚ → ℚ)
    (self r2 rasOut : ι) (nx ny : Nat) (st : Store ι)
    (hself : self ≠ rasOut) (hr2 : r2 ≠ rasOut)
    (Y X : Int) (hY0 : 0 ≤ Y) (hY : Y < (ny : Int)) (hX0 : 0 ≤ X) (hX : X < (nx : Int)) :
    (binOpLoop pixel self r2 rasOut nx (List.range ny) st rasOut).data Y X =
      pixel ((st self).data Y X) ((st r2).data Y X) := by
  rw [binOpLoop_eq_writeRows pixel self r2 rasOut nx _ st hself hr2,
    Store.update_same]
  have hlen : ∀ i : Nat, (List.zipWith pixel (rowRead (st self) 0 (i : Int) nx)
      (rowRead (st r2) 0 (i : Int) nx)).length = nx := by
    intro i
    simp [rowRead]
  apply writeRows_data_of_covered
  · refine ⟨((0 : Int), ((Y.toNat : Nat) : Int),
      List.zipWith pixel (rowRead (st self) 0 ((Y.toNat : Nat) : Int) nx)
        (rowRead (st r2) 0 ((Y.toNat : Nat) : Int) nx)), ?_, ?_, ?_, ?_⟩
    · exact List.mem_map_of_mem _ (List.mem_range.mpr (by omega))
    · show Y = ((Y.toNat : Nat) : Int)
      omega
    · show (0 : Int) ≤ X
      omega
    · show X < 0 + (List.zipWith pixel (rowRead (st self) 0 ((Y.toNat : Nat) : Int) nx)
        (rowRead (st r2) 0 ((Y.toNat : Nat) : Int) nx)).length
      rw [hlen]
      omega
  · intro wr hmem hc
    rcases List.mem_map.mp hmem with ⟨i, hi, rfl⟩
    have hcy : Y = ((i : Nat) : Int) := hc.1
    show (List.zipWith pixel (rowRead (st self) 0 ((i : Nat) : Int) nx)
      (rowRead (st r2) 0 ((i : Nat) : Int) nx)).getD (X - 0).toNat 0 = _
    have hXn : (X - 0).toNat < nx := by omega
    rw [getD_zipWith _ _ _ _ (by simp [rowRead]; omega) (by simp [rowRead]; omega)]
    unfold rowRead
    rw [getD_map_range, getD_map_range, if_pos hXn, if_pos hXn]
    have he : (0 : Int) + (((X - 0).toNat : Nat) : Int) = X := by omega
    rw [he, ← hcy]

/-- C4: `divide` with mismatched operand dimensions raises `RasterSizeError`
with nothing written; with matching dimensions it writes
`A[i][j] / B[i][j]` wherever `B[i][j] ≠ 0` and the sentinel 255 wherever
`B[i][j] = 0`, at every position of the output raster. -/
theorem divide_spec {ι : Type} [DecidableEq ι] (st : Store ι) (a b out : ι)
    (ha : a ≠ out) (hb : b ≠ out) :
    (((st a).nx ≠ (st b).nx ∨ (st a).ny ≠ (st b).ny) →
      Store.divide a b out st = (some .rasterSize, st)) ∧
    ((st a).nx = (st b).nx → (st a).ny = (st b).ny →
      (Store.divide a b out st).1 = none ∧
      (∀ Y X : Int, 0 ≤ Y → Y < ((st a).ny : Int) → 0 ≤ X → X < ((st a).nx : Int) →
        ((Store.divide a b out st).2 out).data Y X =
          if (st b).data Y X = 0 then 255
          else (st a).data Y X / (st b).data Y X)) := by
  constructor
  · intro herr
    unfold Store.divide
    rw [if_pos herr]
  · intro h1 h2
    unfold Store.divide
    rw [if_neg (by tauto)]
    refine ⟨rfl, ?_⟩
    intro Y X hY0 hY hX0 hX
    exact binOpLoop_out_data _ a b out _ _ st ha hb Y X hY0 hY hX0 hX

/-- Witness for C4: a 2×1 store where `A = [6, 6]`, `B = [0, 3]`; dividing
writes 255 at the zero-divisor position and 2 at the other. -/
theorem divide_spec_witness :
    (Store.divide (0 : Fin 3) 1 2 (fun i =>
      if i = 0 then ⟨2, 1, fun _ _ => 6⟩
      else if i = 1 then ⟨2, 1, fun _ x => if x = 0 then 0 else 3⟩
      else ⟨2, 1, fun _ _ => 9⟩)).1 = none ∧
    ((Store.divide (0 : Fin 3) 1 2 (fun i =>
      if i = 0 then ⟨2, 1, fun _ _ => 6⟩
      else if i = 1 then ⟨2, 1, fun _ x => if x = 0 then 0 else 3⟩
      else ⟨2, 1, fun _ _ => 9⟩)).2 2).data 0 0 = 255 ∧
    ((Store.divide (0 : Fin 3) 1 2 (fun i =>
      if i = 0 then ⟨2, 1, fun _ _ => 6⟩
      else if i = 1 then ⟨2, 1, fun _ x => if x = 0 then 0 else 3⟩
      else ⟨2, 1, fun _ _ => 9⟩)).2 2).data 0 1 = 2 := by
  have h := (divide_spec (fun i : Fin 3 =>
      if i = 0 then (⟨2, 1, fun _ _ => 6⟩ : Raster)
      else if i = 1 then ⟨2, 1, fun _ x => if x = 0 then 0 else 3⟩
      else ⟨2, 1, fun _ _ => 9⟩) 0 1 2 (by decide) (by decide)).2 rfl rfl
  refine ⟨h.1, ?_, ?_⟩
  · rw [h.2 0 0 (by decide) (by decide) (by decide) (by decide)]
    norm_num
  · rw [h.2 0 1 (by decide) (by decide) (by decide) (by decide)]
    norm_num

/-- C10: each of `add`, `subtract`, `multiply`, `divide` writes only to the
output raster: for operands of identical dimensions and an output raster
distinct from both, the receiver and the second operand are unchanged
afterwards. -/
theorem elementwise_ops_frame {ι : Type} [DecidableEq ι] (st : Store ι)
    (a b out : ι)
    (hdx : (st a).nx = (st b).nx) (hdy : (st a).ny = (st b).ny)
    (ha : a ≠ out) (hb : b ≠ out) :
    ((Store.add a b out st).2 a = st a ∧ (Store.add a b out st).2 b = st b) ∧
    ((Store.subtract a b out st).2 a = st a ∧ (Store.subtract a b out st).2 b = st b) ∧
    ((Store.multiply a b out st).2 a = st a ∧ (Store.multiply a b out st).2 b = st b) ∧
    ((Store.divide a b out st).2 a = st a ∧ (Store.divide a b out st).2 b = st b) := by
  unfold Store.add Store.subtract Store.multiply Store.divide
  rw [if_neg (by tauto), if_neg (by tauto), if_neg (by tauto), if_neg (by tauto)]
  exact ⟨⟨binOpLoop_frame _ _ _ _ _ _ _ _ ha, binOpLoop_frame _ _ _ _ _ _ _ _ hb⟩,
    ⟨binOpLoop_frame _ _ _ _ _ _ _ _ ha, binOpLoop_frame _ _ _ _ _ _ _ _ hb⟩,
    ⟨binOpLoop_frame _ _ _ _ _ _ _ _ ha, binOpLoop_frame _ _ _ _ _ _ _ _ hb⟩,
    ⟨binOpLoop_frame _ _ _ _ _ _ _ _ ha, binOpLoop_frame _ _ _ _ _ _ _ _ hb⟩⟩

/-- Witness for C10 at a concrete 2×2 store. -/
theorem elementwise_ops_frame_witness :
    ((Store.add (0 : Fin 3) 1 2 (fun _ => ⟨2, 2, fun _ _ => 3⟩)).2 0
      = (fun _ : Fin 3 => (⟨2, 2, fun _ _ => 3⟩ : Raster)) 0) ∧
    ((Store.divide (0 : Fin 3) 1 2 (fun _ => ⟨2, 2, fun _ _ => 3⟩)).2 1
      = (fun _ : Fin 3 => (⟨2, 2, fun _ _ => 3⟩ : Raster)) 1) := by
  have h := elementwise_ops_frame (fun _ : Fin 3 => (⟨2, 2, fun _ _ => 3⟩ : Raster))
    0 1 2 rfl rfl (by decide) (by decide)
  exact ⟨h.1.1, h.2.2.2.2⟩

/-- C8: for any two valid mask values, `gradientMask` produces identical
results — the pass applied is the fixed positive blur kernel, independent
of `mask`. -/
theorem gradientMask_mask_irrelevant (inp rasOut : Raster) (m1 m2 : Int)
    (hdx : inp.nx = rasOut.nx) (hdy : inp.ny = rasOut.ny)
    (h11 : 1 ≤ m1) (h18 : m1 ≤ 8) (h21 : 1 ≤ m2) (h28 : m2 ≤ 8) :
    Raster.gradientMask inp rasOut m1 = Raster.gradientMask inp rasOut m2 := by
  unfold Raster.gradientMask
  rw [if_neg (show ¬ m1 < 1 by omega), if_neg (show ¬ m1 > 8 by omega),
    if_neg (show ¬ m2 < 1 by omega), if_neg (show ¬ m2 > 8 by omega)]

/-- Witness for C8: masks 1 (N gradient) and 5 (NE gradient) give the same
output on a concrete 2×2 raster. -/
theorem gradientMask_mask_irrelevant_witness :
    Raster.gradientMask ⟨2, 2, fun _ _ => 7⟩ ⟨2, 2, fun _ _ => 0⟩ 1 =
    Raster.gradientMask ⟨2, 2, fun _ _ => 7⟩ ⟨2, 2, fun _ _ => 0⟩ 5 :=
  gradientMask_mask_irrelevant ⟨2, 2, fun _ _ => 7⟩ ⟨2, 2, fun _ _ => 0⟩ 1 5
    rfl rfl (by decide) (by decide) (by decide) (by decide)

/-- The kernel entries sum to `256/400 = 16/25` (the `{1,4,6,4,1}` rows
sum to 16, 64, 96, 64, 16), so the accumulation multiplies each pixel by
the fixed factor `16/25`: the pass result depends only on the pixel's own
value, never on a neighbour. -/
theorem convPixel_eq (v : ℚ) : convPixel v = v * (16/25) := by
  show (List.range 5).foldl _ 0 = _
  norm_num [convPixel, gaussianKernel, List.range_succ]
  ring

theorem blurPixel_eq (v : ℚ) : blurPixel v = v * (5/4) := by
  show (List.range 3).foldl _ 0 = _
  norm_num [blurPixel, blurKernel, List.range_succ]
  ring

theorem getD_map {α β : Type} (f : α → β) (l : List α) (k : Nat)
    (h : k < l.length) (d : α) (d' : β) :
    (l.map f).getD k d' = f (l.getD k d) := by
  rw [List.getD_eq_getElem?_getD, List.getElem?_map, List.getElem?_eq_getElem h,
    List.getD_eq_getElem?_getD, List.getElem?_eq_getElem h]
  rfl

/-- One row step of the pass, pointwise. -/
theorem convPass_step_data (nx : Nat) (i : Nat) (r : Raster) (Y X : Int) :
    (rowWrite r 0 ((i : Nat) : Int)
        ((rowRead r 0 ((i : Nat) : Int) nx).map convPixel)).data Y X =
      if Y = ((i : Nat) : Int) ∧ 0 ≤ X ∧ X < (nx : Int) then
        convPixel (r.data Y X)
      else r.data Y X := by
  simp only [rowWrite]
  have hlen : ((rowRead r 0 ((i : Nat) : Int) nx).map convPixel).length = nx := by
    simp [rowRead]
  by_cases hc : Y = ((i : Nat) : Int) ∧ 0 ≤ X ∧ X < (nx : Int)
  · rw [if_pos hc]
    rw [if_pos ⟨hc.1, hc.2.1, by rw [hlen]; omega⟩]
    rw [getD_map convPixel _ _ (by simp [rowRead]; omega) 0 _]
    unfold rowRead
    rw [getD_map_range, if_pos (by omega)]
    have he : (0 : Int) + (((X - 0).toNat : Nat) : Int) = X := by omega
    rw [he, hc.1]
  · rw [if_neg hc]
    rw [if_neg (by rw [hlen]; intro h; exact hc ⟨h.1, h.2.1, by omega⟩)]

/-- The pass, pointwise: a sample on a processed row and inside the first
`nx` columns becomes `convPixel` of itself; everything else is untouched. -/
theorem convPass_data (nx : Nat) (rows : List Nat) (r : Raster)
    (hnd : rows.Nodup) (Y X : Int) :
    (convPass nx rows r).data Y X =
      if (∃ i ∈ rows, Y = ((i : Nat) : Int)) ∧ 0 ≤ X ∧ X < (nx : Int) then
        convPixel (r.data Y X)
      else r.data Y X := by
  induction rows generalizing r with
  | nil =>
    rw [if_neg (by rintro ⟨⟨i, hi, _⟩, _⟩; cases hi)]
    rfl
  | cons i tl ih =>
    have hnd' : tl.Nodup := (List.nodup_cons.mp hnd).2
    have hni : i ∉ tl := (List.nodup_cons.mp hnd).1
    show (convPass nx tl (rowWrite r 0 ((i : Nat) : Int)
      ((rowRead r 0 ((i : Nat) : Int) nx).map convPixel))).data Y X = _
    rw [ih _ hnd']
    rw [convPass_step_data]
    by_cases hY : (∃ j ∈ tl, Y = ((j : Nat) : Int)) ∧ 0 ≤ X ∧ X < (nx : Int)
    · rw [if_pos hY]
      obtain ⟨⟨j, hj, hYj⟩, hX⟩ := hY
      have hne : ¬ (Y = ((i : Nat) : Int)) := by
        intro h
        exact hni (by rw [show i = j by omega]; exact hj)
      rw [if_neg (by tauto)]
      rw [if_pos ⟨⟨j, List.mem_cons_of_mem _ hj, hYj⟩, hX⟩]
    · rw [if_neg hY]
      by_cases hYi : Y = ((i : Nat) : Int) ∧ 0 ≤ X ∧ X < (nx : Int)
      · rw [if_pos hYi, if_pos ⟨⟨i, List.mem_cons_self _ _, hYi.1⟩, hYi.2⟩]
      · rw [if_neg hYi]
        rw [if_neg (by
          rintro ⟨⟨j, hj, hYj⟩, hX⟩
          rcases List.mem_cons.mp hj with h | h
          · exact hYi ⟨by rw [hYj, h], hX⟩
          · exact hY ⟨⟨j, h, hYj⟩, hX⟩)]

/-- C5: `downsample` raises `RasterSizeError` iff the output dimensions are
not `(nx/2, ny/2)` (floor); otherwise no error is raised, the convolution
pass maps every sample `v` to `convPixel v = v * (16/25)` — a value
depending only on the kernel and the sample itself, never on neighbouring
pixels — and the half-size output keeps exactly the convolved samples of
odd 0-based row and column index: `out[r][c] = convPixel (in[2r+1][2c+1])`. -/
theorem downsample_spec (self rasOut : Raster) :
    ((self.nx / 2 ≠ rasOut.nx ∨ self.ny / 2 ≠ rasOut.ny) →
      self.downsample rasOut = (some .rasterSize, self, rasOut)) ∧
    (self.nx / 2 = rasOut.nx → self.ny / 2 = rasOut.ny →
      (self.downsample rasOut).1 = none ∧
      (∀ v : ℚ, convPixel v = v * (16/25)) ∧
      (∀ r c : Nat, r < self.ny / 2 → c < self.nx / 2 →
        ((self.downsample rasOut).2.2).data ((r : Nat) : Int) ((c : Nat) : Int) =
          convPixel (self.data ((2 * r + 1 : Nat) : Int) ((2 * c + 1 : Nat) : Int)))) := by
  constructor
  · intro herr
    unfold Raster.downsample
    rcases herr with h1 | h1
    · rw [if_pos h1]
    · by_cases h2 : self.nx / 2 ≠ rasOut.nx
      · rw [if_pos h2]
      · rw [if_neg h2, if_pos h1]
  · intro h1 h2
    unfold Raster.downsample
    rw [if_neg (by omega), if_neg (by omega)]
    refine ⟨rfl, convPixel_eq, ?_⟩
    intro r c hr hc
    show (writeRows rasOut ((List.range (self.ny / 2)).map (fun k : Nat =>
      ((0 : Int), ((k : Nat) : Int),
        (List.range (self.nx / 2)).map (fun c : Nat =>
          (convPass self.nx (List.range self.ny) self).data
            ((2 * k + 1 : Nat) : Int) ((2 * c + 1 : Nat) : Int)))))).data
        ((r : Nat) : Int) ((c : Nat) : Int) = _
    have hval : ∀ k c : Nat, k < self.ny / 2 → c < self.nx / 2 →
        (convPass self.nx (List.range self.ny) self).data
          ((2 * k + 1 : Nat) : Int) ((2 * c + 1 : Nat) : Int) =
        convPixel (self.data ((2 * k + 1 : Nat) : Int) ((2 * c + 1 : Nat) : Int)) := by
      intro k c hk hc
      rw [convPass_data _ _ _ (List.nodup_range _)]
      rw [if_pos ⟨⟨2 * k + 1, List.mem_range.mpr (by omega), rfl⟩, by omega, by omega⟩]
    apply writeRows_data_of_covered
    · refine ⟨((0 : Int), ((r : Nat) : Int),
        (List.range (self.nx / 2)).map (fun c : Nat =>
          (convPass self.nx (List.range self.ny) self).data
            ((2 * r + 1 : Nat) : Int) ((2 * c + 1 : Nat) : Int))), ?_, ?_, ?_, ?_⟩
      · exact List.mem_map_of_mem _ (List.mem_range.mpr hr)
      · show ((r : Nat) : Int) = ((r : Nat) : Int)
        rfl
      · show (0 : Int) ≤ ((c : Nat) : Int)
        omega
      · show ((c : Nat) : Int) < 0 + ((List.range (self.nx / 2)).map (fun c : Nat =>
          (convPass self.nx (List.range self.ny) self).data
            ((2 * r + 1 : Nat) : Int) ((2 * c + 1 : Nat) : Int))).length
        simp only [List.length_map, List.length_range]
        omega
    · intro wr hmem hc'
      rcases List.mem_map.mp hmem with ⟨k, hk, rfl⟩
      have hky : ((r : Nat) : Int) = ((k : Nat) : Int) := hc'.1
      have hkr : k = r := by omega
      subst hkr
      show ((List.range (self.nx / 2)).map (fun c : Nat =>
        (convPass self.nx (List.range self.ny) self).data
          ((2 * k + 1 : Nat) : Int) ((2 * c + 1 : Nat) : Int))).getD
          (((c : Nat) : Int) - 0).toNat 0 = _
      rw [getD_map_range, if_pos (by omega)]
      have he : ((((c : Nat) : Int) - 0).toNat) = c := by omega
      rw [he]
      exact hval k c (List.mem_range.mp hk) hc

/-- Witness for C5: a 4×4 raster holding `10*y + x` downsamples into a 2×2
raster whose (0,0) sample is `convPixel` of the input's (1,1) sample:
`11 * 16/25 = 176/25`. -/
theorem downsample_spec_witness :
    ((⟨4, 4, fun y x => 10 * y + x⟩ : Raster).downsample ⟨2, 2, fun _ _ => 0⟩).1 = none ∧
    (((⟨4, 4, fun y x => 10 * y + x⟩ : Raster).downsample ⟨2, 2, fun _ _ => 0⟩).2.2).data 0 0 = 176/25 := by
  have h := (downsample_spec (⟨4, 4, fun y x => 10 * y + x⟩ : Raster)
    ⟨2, 2, fun _ _ => 0⟩).2 (by norm_num) (by norm_num)
  refine ⟨h.1, ?_⟩
  have := h.2.2 0 0 (by norm_num) (by norm_num)
  rw [show ((0 : Nat) : Int) = (0 : Int) from rfl] at this
  rw [this, convPixel_eq]
  norm_num

/- ### `Raster::gaussianPyramid` (Raster.cpp lines 892-914) -/
theorem exbind_ok {ε α β : Type} (a : α) (f : α → Except ε β) :
    (Except.ok a : Except ε α).bind f = f a := rfl

theorem exbind_error {ε α β : Type} (e : ε) (f : α → Except ε β) :
    (Except.error e : Except ε α).bind f = .error e := rfl

theorem mbind_ok {ε α β : Type} (a : α) (f : α → Except ε β) :
    ((Except.ok a : Except ε α) >>= f) = f a := rfl

theorem mbind_error {ε α β : Type} (e : ε) (f : α → Except ε β) :
    ((Except.error e : Except ε α) >>= f) = .error e := rfl

/-- The pyramid loop always dies with an out-of-bounds vector write when
some index reaches the vector's size. -/
theorem pyramidLoop_oob (nx ny : Nat) (idxs : List Nat)
    (acc : List (Nat × Nat)) (hall : ∀ i ∈ idxs, 1 ≤ i)
    (hex : ∃ i ∈ idxs, acc.length ≤ i) :
    idxs.foldlM (pyramidStep nx ny) acc = .error .outOfBounds := by
  induction idxs generalizing acc with
  | nil => rcases hex with ⟨i, hi, _⟩; cases hi
  | cons i tl ih =>
    rw [List.foldlM_cons]
    by_cases hi : i < acc.length
    · have h1 : 1 ≤ i := hall i (List.mem_cons_self _ _)
      have hpow : 2 ^ (i - 1) * 2 = 2 ^ i := by
        rw [← Nat.pow_succ, show (i - 1).succ = i from by omega]
      have e1 : nx / 2 ^ (i - 1) / 2 = nx / 2 ^ i := by
        rw [Nat.div_div_eq_div_mul, hpow]
      have e2 : ny / 2 ^ (i - 1) / 2 = ny / 2 ^ i := by
        rw [Nat.div_div_eq_div_mul, hpow]
      have hstep : pyramidStep nx ny acc i = .ok (acc.set i (nx / 2 ^ i, ny / 2 ^ i)) := by
        unfold pyramidStep vecSet downsampleCheck
        rw [if_pos hi, exbind_ok, e1, e2]
        rw [if_neg (by omega), if_neg (by omega), exbind_ok]
      rw [hstep, mbind_ok]
      apply ih _ (fun j hj => hall j (List.mem_cons_of_mem _ hj))
      rcases hex with ⟨j, hj, hle⟩
      rcases List.mem_cons.mp hj with h | h
      · exact absurd (h ▸ hle) (by omega)
      · exact ⟨j, h, by rw [List.length_set]; exact hle⟩
    · have hstep : pyramidStep nx ny acc i = .error .outOfBounds := by
        unfold pyramidStep vecSet
        rw [if_neg hi, exbind_error]
      rw [hstep, mbind_error]

/-- C2 (the code, as written): `gaussianPyramid(n)` throws
`IntegerParameterError` for `n < 1`, but for every `n ≥ 1` it never
returns a sequence of rasters at all: the vector `output` is allocated
with size `n` while indices `0 .. n` are assigned, so the final assignment
(`output[1]` when `n = 1`, `output[n]` in the loop otherwise) is an
out-of-bounds `std::vector` write — it cannot produce the `n+1` rasters
the specification promises. -/
theorem gaussianPyramid_spec (nx ny : Nat) (n : Int) :
    (n < 1 → gaussianPyramid nx ny n = .error .integerParameter) ∧
    (1 ≤ n → gaussianPyramid nx ny n = .error .outOfBounds) := by
  constructor
  · intro h
    unfold gaussianPyramid
    rw [if_pos h]
  · intro hn
    unfold gaussianPyramid
    rw [if_neg (by omega)]
    have hlen0 : (List.replicate n.toNat ((0 : Nat), (0 : Nat))).length = n.toNat := by
      simp
    have h0 : vecSet (List.replicate n.toNat ((0 : Nat), (0 : Nat))) 0 (nx, ny)
        = .ok ((List.replicate n.toNat ((0 : Nat), (0 : Nat))).set 0 (nx, ny)) := by
      unfold vecSet
      rw [if_pos (by rw [hlen0]; omega)]
    rw [h0, exbind_ok]
    by_cases h1 : n.toNat = 1
    · have hv : vecSet ((List.replicate n.toNat ((0 : Nat), (0 : Nat))).set 0 (nx, ny))
          1 (nx / 2, ny / 2) = .error .outOfBounds := by
        unfold vecSet
        rw [if_neg (by rw [List.length_set, hlen0, h1]; omega)]
      rw [hv, exbind_error]
    · have hn2 : 2 ≤ n.toNat := by omega
      have hv : vecSet ((List.replicate n.toNat ((0 : Nat), (0 : Nat))).set 0 (nx, ny))
          1 (nx / 2, ny / 2)
          = .ok (((List.replicate n.toNat ((0 : Nat), (0 : Nat))).set 0 (nx, ny)).set
              1 (nx / 2, ny / 2)) := by
        unfold vecSet
        rw [if_pos (by rw [List.length_set, hlen0]; omega)]
      rw [hv, exbind_ok]
      have hchk : downsampleCheck nx ny (nx / 2) (ny / 2) = .ok () := by
        unfold downsampleCheck
        rw [if_neg (by omega), if_neg (by omega)]
      rw [hchk, exbind_ok]
      apply pyramidLoop_oob
      · intro i hi
        rcases List.mem_map.mp hi with ⟨j, _, rfl⟩
        omega
      · refine ⟨n.toNat, ?_, ?_⟩
        · exact List.mem_map.mpr ⟨n.toNat - 2, List.mem_range.mpr (by omega), by omega⟩
        · rw [List.length_set, List.length_set, hlen0]

/-- Witness for C2: on a 4×4 raster, `gaussianPyramid(0)` throws
`IntegerParameterError` and `gaussianPyramid(1)` dies with the
out-of-bounds `output[1]` write. -/
theorem gaussianPyramid_spec_witness :
    gaussianPyramid 4 4 0 = .error .integerParameter ∧
    gaussianPyramid 4 4 1 = .error .outOfBounds :=
  ⟨(gaussianPyramid_spec 4 4 0).1 (by decide),
   (gaussianPyramid_spec 4 4 1).2 (by decide)⟩

/- ### `Raster::midpointFilter` (Raster.cpp lines 1102-1166) -/
/-- Uniqueness of the tile decomposition `a * m + b` with `b < m`. -/
theorem tile_unique {a b c d m : Nat} (hb : b < m) (hd : d < m)
    (h : a * m + b = c * m + d) : a = c ∧ b = d := by
  have hac : a = c := by
    by_contra hne
    rcases Nat.lt_or_ge a c with hlt | hge
    · have : a * m + b < c * m + d := by
        calc a * m + b < a * m + m := by omega
        _ = (a + 1) * m := by ring
        _ ≤ c * m := Nat.mul_le_mul_right m hlt
        _ ≤ c * m + d := by omega
      omega
    · have hgt : c < a := by omega
      have : c * m + d < a * m + b := by
        calc c * m + d < c * m + m := by omega
        _ = (c + 1) * m := by ring
        _ ≤ a * m := Nat.mul_le_mul_right m hgt
        _ ≤ a * m + b := by omega

      omega
  subst hac
  exact ⟨rfl, by omega⟩

/-- C3 fails on the code: on the 3×3 raster with a 9 in the top-left
corner and zeroes elsewhere (one single 3×3 tile), the claim says every
output sample of the tile becomes `(min + max) / 2 = (0 + 9) / 2 = 9/2`,
but `midpointFilter` writes 0 — its min/max variables are re-seeded on
every row, so they describe the all-zero last row only. -/
theorem midpointFilter_counterexample :
    ((Raster.midpointFilter ⟨3, 3, fun y x => if y = 0 ∧ x = 0 then 9 else 0⟩
        ⟨3, 3, fun _ _ => 0⟩ 3).2).data 0 0 ≠
      (tileMin ⟨3, 3, fun y x => if y = 0 ∧ x = 0 then 9 else 0⟩ 3 0 0 +
       tileMax ⟨3, 3, fun y x => if y = 0 ∧ x = 0 then 9 else 0⟩ 3 0 0) / 2 := by
  have hstat : midpointTileStat
      ⟨3, 3, fun y x => if y = 0 ∧ x = 0 then 9 else 0⟩ 3 0 0 = (0, 0) := by
    simp [midpointTileStat, scanRowMinMax, rowRead, List.range_succ]
  have hlhs : ((Raster.midpointFilter ⟨3, 3, fun y x => if y = 0 ∧ x = 0 then 9 else 0⟩
      ⟨3, 3, fun _ _ => 0⟩ 3).2).data 0 0 = 0 := by
    unfold Raster.midpointFilter
    rw [if_neg (by decide), if_neg (by decide), if_neg (by decide),
      if_neg (by decide), if_neg (by decide)]
    show (writeRows ⟨3, 3, fun _ _ => 0⟩ _).data 0 0 = 0
    rw [writeRows_data_of_covered _ _ _ _
      (((midpointTileStat ⟨3, 3, fun y x => if y = 0 ∧ x = 0 then 9 else 0⟩ 3 0 0).1 +
        (midpointTileStat ⟨3, 3, fun y x => if y = 0 ∧ x = 0 then 9 else 0⟩ 3 0 0).2) / 2)]
    · rw [hstat]
      norm_num
    · refine ⟨(((0 * 3 : Nat) : Int), ((0 * 3 + 0 : Nat) : Int),
        List.replicate 3 (((midpointTileStat ⟨3, 3, fun y x => if y = 0 ∧ x = 0 then 9 else 0⟩ 3 0 0).1 +
          (midpointTileStat ⟨3, 3, fun y x => if y = 0 ∧ x = 0 then 9 else 0⟩ 3 0 0).2) / 2)), ?_, ?_, ?_, ?_⟩
      · refine List.mem_flatMap.mpr ⟨0, List.mem_range.mpr (by decide), ?_⟩
        refine List.mem_flatMap.mpr ⟨0, List.mem_range.mpr (by decide), ?_⟩
        exact List.mem_map_of_mem _ (List.mem_range.mpr (by decide))
      · show (0 : Int) = ((0 * 3 + 0 : Nat) : Int)
        norm_num
      · show ((0 * 3 : Nat) : Int) ≤ 0
        norm_num
      · show (0 : Int) < ((0 * 3 : Nat) : Int) + (List.replicate 3 _).length
        simp
    · intro wr hmem hc
      rcases List.mem_flatMap.mp hmem with ⟨y, hy, hmem1⟩
      rcases List.mem_flatMap.mp hmem1 with ⟨x, hx, hmem2⟩
      rcases List.mem_map.mp hmem2 with ⟨s, hs, rfl⟩
      have hy0 : y = 0 := by simpa using List.mem_range.mp hy
      have hx0 : x = 0 := by simpa using List.mem_range.mp hx
      subst hy0; subst hx0
      show (List.replicate 3 _).getD ((0 : Int) - ((0 * 3 : Nat) : Int)).toNat _ = _
      rw [getD_replicate _ _ _ _ (by norm_num)]
      rfl
  rw [hlhs]
  have hrhs : (tileMin ⟨3, 3, fun y x => if y = 0 ∧ x = 0 then 9 else 0⟩ 3 0 0 +
      tileMax ⟨3, 3, fun y x => if y = 0 ∧ x = 0 then 9 else 0⟩ 3 0 0) / 2 = 9 / 2 := by
    have hs : tileSamples ⟨3, 3, fun y x => if y = 0 ∧ x = 0 then 9 else 0⟩ 3 0 0 =
        [9, 0, 0, 0, 0, 0, 0, 0, 0] := by
      simp [tileSamples, rowRead, List.range_succ]
    rw [tileMin, tileMax, hs]
    norm_num [min_def, max_def]
  rw [hrhs]
  norm_num

/-- Uniqueness of the tile index from interval membership. -/
theorem interval_unique {x t l m : Nat} (hl : l < m)
    (h1 : x * m ≤ t * m + l) (h2 : t * m + l < x * m + m) : x = t := by
  by_contra hne
  rcases Nat.lt_or_ge x t with hlt | hge
  · have : x * m + m ≤ t * m := by
      calc x * m + m = (x + 1) * m := by ring
      _ ≤ t * m := Nat.mul_le_mul_right m hlt
    omega
  · have hgt : t < x := by omega
    have : t * m + m ≤ x * m := by
      calc t * m + m = (t + 1) * m := by ring
      _ ≤ x * m := Nat.mul_le_mul_right m hgt
    omega

/-- The else-if scan with seeds `mn ≤ mx` computes exactly the running
minimum and maximum. -/
theorem scanStep_eq (row : List ℚ) (mn mx : ℚ) (h : mn ≤ mx) :
    row.foldl (fun p d => if d < p.1 then (d, p.2) else if d > p.2 then (p.1, d) else p)
      (mn, mx) = (row.foldl min mn, row.foldl max mx) := by
  induction row generalizing mn mx with
  | nil => rfl
  | cons d tl ih =>
    show tl.foldl _ (if d < mn then (d, mx) else if d > mx then (mn, d) else (mn, mx)) = _
    rw [List.foldl_cons, List.foldl_cons]
    by_cases h1 : d < mn
    · rw [if_pos h1, ih _ _ (le_trans (le_of_lt h1) h),
        min_eq_right (le_of_lt h1), max_eq_left (le_trans (le_of_lt h1) h)]
    · rw [if_neg h1]
      by_cases h2 : d > mx
      · rw [if_pos h2, ih _ _ (le_trans h (le_of_lt h2)),
          min_eq_left (not_lt.mp h1), max_eq_right (le_of_lt h2)]
      · rw [if_neg h2, ih _ _ h,
          min_eq_left (not_lt.mp h1), max_eq_left (not_lt.mp h2)]

/-- A fold whose step ignores the accumulator returns the value of the last
index. -/
theorem foldl_const_last {α : Type} (f : Nat → α) (a : α) (nN : Nat) (h : 0 < nN) :
    (List.range nN).foldl (fun _ s => f s) a = f (nN - 1) := by
  cases nN with
  | zero => omega
  | succ m =>
    rw [List.range_succ, List.foldl_append]
    rfl

/-- The scan state after the tile's row loop is min/max of the LAST row. -/
theorem midpointTileStat_eq (inp : Raster) (nN x y : Nat) (hn : 0 < nN) :
    midpointTileStat inp nN x y =
      ((rowRead inp ((x * nN : Nat) : Int) ((y * nN + (nN - 1) : Nat) : Int) nN).foldl min
        ((rowRead inp ((x * nN : Nat) : Int) ((y * nN + (nN - 1) : Nat) : Int) nN).headD 0),
       (rowRead inp ((x * nN : Nat) : Int) ((y * nN + (nN - 1) : Nat) : Int) nN).foldl max
        ((rowRead inp ((x * nN : Nat) : Int) ((y * nN + (nN - 1) : Nat) : Int) nN).headD 0)) := by
  unfold midpointTileStat
  rw [foldl_const_last _ _ _ hn]
  exact scanStep_eq _ _ _ (le_refl _)

/-- C3, amended: for valid `n` and matching dimensions, `midpointFilter`
raises no error, broadcasts over every complete `n×n` tile the value
`(localMin + localMax) / 2` where `localMin`/`localMax` are the minimum
and maximum over the n samples of the tile's LAST row (row index
`y*n + n - 1`) only — not over all `n*n` samples of the tile — and leaves
every output sample outside the complete tiles unchanged. -/
theorem midpointFilter_amended (inp rasOut : Raster) (n : Int)
    (h3 : 3 ≤ n) (h11 : n ≤ 11) (hodd : n % 2 = 1)
    (hdx : inp.nx = rasOut.nx) (hdy : inp.ny = rasOut.ny) :
    (Raster.midpointFilter inp rasOut n).1 = none ∧
    (∀ tx ty lx ly : Nat,
      tx < inp.nx / n.toNat → ty < inp.ny / n.toNat →
      lx < n.toNat → ly < n.toNat →
      ((Raster.midpointFilter inp rasOut n).2).data
          ((ty * n.toNat + ly : Nat) : Int) ((tx * n.toNat + lx : Nat) : Int) =
        ((rowRead inp ((tx * n.toNat : Nat) : Int)
            ((ty * n.toNat + (n.toNat - 1) : Nat) : Int) n.toNat).foldl min
          ((rowRead inp ((tx * n.toNat : Nat) : Int)
            ((ty * n.toNat + (n.toNat - 1) : Nat) : Int) n.toNat).headD 0) +
         (rowRead inp ((tx * n.toNat : Nat) : Int)
            ((ty * n.toNat + (n.toNat - 1) : Nat) : Int) n.toNat).foldl max
          ((rowRead inp ((tx * n.toNat : Nat) : Int)
            ((ty * n.toNat + (n.toNat - 1) : Nat) : Int) n.toNat).headD 0)) / 2) ∧
    (∀ Y X : Int,
      ¬ (0 ≤ Y ∧ Y < ((inp.ny / n.toNat * n.toNat : Nat) : Int) ∧
         0 ≤ X ∧ X < ((inp.nx / n.toNat * n.toNat : Nat) : Int)) →
      ((Raster.midpointFilter inp rasOut n).2).data Y X = rasOut.data Y X) := by
  have hnN : 0 < n.toNat := by omega
  unfold Raster.midpointFilter
  rw [if_neg (by omega), if_neg (by omega), if_neg (by omega),
    if_neg (by tauto), if_neg (by tauto)]
  refine ⟨rfl, ?_, ?_⟩
  · intro tx ty lx ly htx hty hlx hly
    show (writeRows rasOut _).data _ _ = _
    apply writeRows_data_of_covered
    · refine ⟨(((tx * n.toNat : Nat) : Int), ((ty * n.toNat + ly : Nat) : Int),
        List.replicate n.toNat (((midpointTileStat inp n.toNat tx ty).1 +
          (midpointTileStat inp n.toNat tx ty).2) / 2)), ?_, ?_, ?_, ?_⟩
      · refine List.mem_flatMap.mpr ⟨ty, List.mem_range.mpr hty, ?_⟩
        refine List.mem_flatMap.mpr ⟨tx, List.mem_range.mpr htx, ?_⟩
        exact List.mem_map_of_mem _ (List.mem_range.mpr hly)
      · rfl
      · show ((tx * n.toNat : Nat) : Int) ≤ ((tx * n.toNat + lx : Nat) : Int)
        omega
      · show ((tx * n.toNat + lx : Nat) : Int) < ((tx * n.toNat : Nat) : Int) +
          (List.replicate n.toNat _).length
        rw [List.length_replicate]
        omega
    · intro wr hmem hcv
      rcases List.mem_flatMap.mp hmem with ⟨y, hy, hmem1⟩
      rcases List.mem_flatMap.mp hmem1 with ⟨x, hx, hmem2⟩
      rcases List.mem_map.mp hmem2 with ⟨s, hs, rfl⟩
      have hcy : ((ty * n.toNat + ly : Nat) : Int) = ((y * n.toNat + s : Nat) : Int) := hcv.1
      have hcx1 : ((x * n.toNat : Nat) : Int) ≤ ((tx * n.toNat + lx : Nat) : Int) := hcv.2.1
      have hcx2 : ((tx * n.toNat + lx : Nat) : Int) < ((x * n.toNat : Nat) : Int) +
          (List.replicate n.toNat (((midpointTileStat inp n.toNat x y).1 +
            (midpointTileStat inp n.toNat x y).2) / 2)).length := hcv.2.2
      rw [List.length_replicate] at hcx2
      have hyn : ty * n.toNat + ly = y * n.toNat + s := by exact_mod_cast hcy
      obtain ⟨hty', hly'⟩ := tile_unique hly (List.mem_range.mp hs) hyn
      have hxn : x = tx := interval_unique (m := n.toNat) hlx (by exact_mod_cast hcx1)
        (by exact_mod_cast hcx2)
      obtain rfl : ty = y := hty'
      obtain rfl : tx = x := hxn.symm
      show (List.replicate n.toNat _).getD _ _ = _
      rw [getD_replicate _ _ _ _ (by
        have : (((tx * n.toNat + lx : Nat) : Int) - ((tx * n.toNat : Nat) : Int)).toNat = lx := by
          omega
        rw [this]
        exact hlx)]
      rw [midpointTileStat_eq inp n.toNat tx ty hnN]
  · intro Y X hout
    show (writeRows rasOut _).data Y X = rasOut.data Y X
    apply writeRows_data_of_not_covered
    intro wr hmem
    rcases List.mem_flatMap.mp hmem with ⟨y, hy, hmem1⟩
    rcases List.mem_flatMap.mp hmem1 with ⟨x, hx, hmem2⟩
    rcases List.mem_map.mp hmem2 with ⟨s, hs, rfl⟩
    intro hcv
    have hcy : Y = ((y * n.toNat + s : Nat) : Int) := hcv.1
    have hcx1 : ((x * n.toNat : Nat) : Int) ≤ X := hcv.2.1
    have hcx2 : X < ((x * n.toNat : Nat) : Int) +
        (List.replicate n.toNat (((midpointTileStat inp n.toNat x y).1 +
          (midpointTileStat inp n.toNat x y).2) / 2)).length := hcv.2.2
    rw [List.length_replicate] at hcx2
    have hyb : y * n.toNat + s < inp.ny / n.toNat * n.toNat :=
      idx_lt (List.mem_range.mp hy) (List.mem_range.mp hs)
    have hxb : x * n.toNat + n.toNat ≤ inp.nx / n.toNat * n.toNat := by
      calc x * n.toNat + n.toNat = (x + 1) * n.toNat := by ring
      _ ≤ inp.nx / n.toNat * n.toNat :=
        Nat.mul_le_mul_right _ (List.mem_range.mp hx)
    exact hout ⟨by omega, by omega, by omega, by omega⟩

/-- Witness for the amended C3 on the counterexample raster: the broadcast
value at (0,0) is the midpoint of the all-zero last row, i.e. 0. -/
theorem midpointFilter_amended_witness :
    (Raster.midpointFilter ⟨3, 3, fun y x => if y = 0 ∧ x = 0 then 9 else 0⟩
      ⟨3, 3, fun _ _ => 0⟩ 3).1 = none ∧
    ((Raster.midpointFilter ⟨3, 3, fun y x => if y = 0 ∧ x = 0 then 9 else 0⟩
      ⟨3, 3, fun _ _ => 0⟩ 3).2).data 0 0 = 0 := by
  have h := midpointFilter_amended ⟨3, 3, fun y x => if y = 0 ∧ x = 0 then 9 else 0⟩
    ⟨3, 3, fun _ _ => 0⟩ 3 (by decide) (by decide) (by decide) rfl rfl
  refine ⟨h.1, ?_⟩
  have h2 := h.2.1 0 0 0 0 (by decide) (by decide) (by decide) (by decide)
  have e0 : (((0 * Int.toNat 3 + 0 : Nat)) : Int) = 0 := by decide
  rw [e0] at h2
  rw [h2]
  have hrow : rowRead ⟨3, 3, fun y x => if y = 0 ∧ x = 0 then 9 else 0⟩
      ((0 * Int.toNat 3 : Nat) : Int) ((0 * Int.toNat 3 + (Int.toNat 3 - 1) : Nat) : Int)
      (Int.toNat 3) = [0, 0, 0] := by
    simp [rowRead, List.range_succ]
  rw [hrow]
  norm_num [min_def, max_def]

theorem foldl_minmax_pair (l : List ℚ) (mn mx : ℚ) :
    l.foldl (fun q d => (if d < q.1 then d else q.1, if d > q.2 then d else q.2))
      (mn, mx) = (l.foldl min mn, l.foldl max mx) := by
  induction l generalizing mn mx with
  | nil => rfl
  | cons d tl ih =>
    show tl.foldl _ (if d < mn then d else mn, if d > mx then d else mx) = _
    rw [List.foldl_cons, List.foldl_cons, ih]
    have e1 : (if d < mn then d else mn) = min mn d := by
      rcases le_or_lt mn d with h | h
      · rw [if_neg (not_lt.mpr h), min_eq_left h]
      · rw [if_pos h, min_eq_right (le_of_lt h)]
    have e2 : (if d > mx then d else mx) = max mx d := by
      rcases le_or_lt d mx with h | h
      · rw [if_neg (not_lt.mpr h), max_eq_left h]
      · rw [if_pos h, max_eq_right (le_of_lt h)]
    rw [e1, e2]

theorem foldl_flatMap_acc {α β γ : Type} (l : List α) (f : α → List β)
    (g : γ → β → γ) (a : γ) :
    (l.flatMap f).foldl g a = l.foldl (fun acc x => (f x).foldl g acc) a := by
  induction l generalizing a with
  | nil => rfl
  | cons x tl ih =>
    rw [List.flatMap_cons, List.foldl_append, List.foldl_cons, ih]

theorem foldl_idx_minmax (f : Nat → List ℚ) (idxs : List Nat) (mn mx : ℚ) :
    idxs.foldl (fun p i => (f i).foldl
      (fun q d => (if d < q.1 then d else q.1, if d > q.2 then d else q.2)) p) (mn, mx)
      = (idxs.foldl (fun m i => (f i).foldl min m) mn,
         idxs.foldl (fun m i => (f i).foldl max m) mx) := by
  induction idxs generalizing mn mx with
  | nil => rfl
  | cons i tl ih =>
    rw [List.foldl_cons, List.foldl_cons, List.foldl_cons, foldl_minmax_pair]
    exact ih _ _

/-- The sector scan computes the fold-min seeded at 100000 and the
fold-max seeded at 0 over the sector's samples. -/
theorem sectorScan_eq (inp : Raster) (psX psY sx sy : Nat) :
    sectorScan inp psX psY sx sy =
      ((sectorSamples inp psX psY sx sy).foldl min 100000,
       (sectorSamples inp psX psY sx sy).foldl max 0) := by
  unfold sectorScan sectorSamples
  rw [foldl_flatMap_acc, foldl_flatMap_acc, foldl_idx_minmax]

/-- Value of `autoLocalThresh` at a sector-local position, in terms of the
code's scan state. -/
theorem autoLocalThresh_value (inp rasOut : Raster) (partitions : Int)
    (hdx : inp.nx = rasOut.nx) (hdy : inp.ny = rasOut.ny)
    (h1 : 1 ≤ partitions) (h150 : partitions ≤ 150)
    (sx sy i j : Nat) (hsx : sx < partitions.toNat) (hsy : sy < partitions.toNat)
    (hi : i < inp.ny / partitions.toNat) (hj : j < inp.nx / partitions.toNat) :
    ((Raster.autoLocalThresh inp rasOut partitions).2).data
        ((sy * (inp.ny / partitions.toNat) + i : Nat) : Int)
        ((sx * (inp.nx / partitions.toNat) + j : Nat) : Int) =
      if inp.data ((sy * (inp.ny / partitions.toNat) + i : Nat) : Int)
           ((sx * (inp.nx / partitions.toNat) + j : Nat) : Int) <
          ((sectorScan inp (inp.nx / partitions.toNat) (inp.ny / partitions.toNat) sx sy).2 +
           (sectorScan inp (inp.nx / partitions.toNat) (inp.ny / partitions.toNat) sx sy).1) / 3
      then 0
      else inp.data ((sy * (inp.ny / partitions.toNat) + i : Nat) : Int)
        ((sx * (inp.nx / partitions.toNat) + j : Nat) : Int) := by
  unfold Raster.autoLocalThresh
  rw [if_neg (by tauto), if_neg (by tauto), if_neg (by omega), if_neg (by omega)]
  show (writeRows rasOut _).data _ _ = _
  have hrowlen : ∀ (x0 y0 : Int) (a b : Nat),
      ((rowRead inp x0 y0 (inp.nx / partitions.toNat)).map
        (fun d => if d < ((sectorScan inp (inp.nx / partitions.toNat)
            (inp.ny / partitions.toNat) a b).2 +
          (sectorScan inp (inp.nx / partitions.toNat)
            (inp.ny / partitions.toNat) a b).1) / 3 then 0 else d)).length
        = inp.nx / partitions.toNat := by
    intro x0 y0 a b
    simp [rowRead]
  apply writeRows_data_of_covered
  · refine ⟨(((sx * (inp.nx / partitions.toNat) : Nat) : Int),
      ((sy * (inp.ny / partitions.toNat) + i : Nat) : Int),
      (rowRead inp ((sx * (inp.nx / partitions.toNat) : Nat) : Int)
          ((sy * (inp.ny / partitions.toNat) + i : Nat) : Int)
          (inp.nx / partitions.toNat)).map
        (fun d => if d < ((sectorScan inp (inp.nx / partitions.toNat)
            (inp.ny / partitions.toNat) sx sy).2 +
          (sectorScan inp (inp.nx / partitions.toNat)
            (inp.ny / partitions.toNat) sx sy).1) / 3 then 0 else d)), ?_, ?_, ?_, ?_⟩
    · refine List.mem_flatMap.mpr ⟨sy, List.mem_range.mpr hsy, ?_⟩
      refine List.mem_flatMap.mpr ⟨sx, List.mem_range.mpr hsx, ?_⟩
      exact List.mem_map_of_mem _ (List.mem_range.mpr hi)
    · rfl
    · show ((sx * (inp.nx / partitions.toNat) : Nat) : Int) ≤
        ((sx * (inp.nx / partitions.toNat) + j : Nat) : Int)
      omega
    · show ((sx * (inp.nx / partitions.toNat) + j : Nat) : Int) <
        ((sx * (inp.nx / partitions.toNat) : Nat) : Int) + _
      rw [hrowlen]
      omega
  · intro wr hmem hcv
    rcases List.mem_flatMap.mp hmem with ⟨y, hy, hmem1⟩
    rcases List.mem_flatMap.mp hmem1 with ⟨x, hx, hmem2⟩
    rcases List.mem_map.mp hmem2 with ⟨r, hr, rfl⟩
    have hcy : ((sy * (inp.ny / partitions.toNat) + i : Nat) : Int)
        = ((y * (inp.ny / partitions.toNat) + r : Nat) : Int) := hcv.1
    have hcx1 : ((x * (inp.nx / partitions.toNat) : Nat) : Int) ≤
        ((sx * (inp.nx / partitions.toNat) + j : Nat) : Int) := hcv.2.1
    have hcx2 : ((sx * (inp.nx / partitions.toNat) + j : Nat) : Int) <
        ((x * (inp.nx / partitions.toNat) : Nat) : Int) +
        ((rowRead inp ((x * (inp.nx / partitions.toNat) : Nat) : Int)
            ((y * (inp.ny / partitions.toNat) + r : Nat) : Int)
            (inp.nx / partitions.toNat)).map
          (fun d => if d < ((sectorScan inp (inp.nx / partitions.toNat)
              (inp.ny / partitions.toNat) x y).2 +
            (sectorScan inp (inp.nx / partitions.toNat)
              (inp.ny / partitions.toNat) x y).1) / 3 then 0 else d)).length := hcv.2.2
    rw [hrowlen] at hcx2
    have hyn : sy * (inp.ny / partitions.toNat) + i
        = y * (inp.ny / partitions.toNat) + r := by exact_mod_cast hcy
    obtain ⟨hsy', hi'⟩ := tile_unique hi (List.mem_range.mp hr) hyn
    have hxn : x = sx := interval_unique (m := inp.nx / partitions.toNat) hj
      (by exact_mod_cast hcx1) (by exact_mod_cast hcx2)
    obtain rfl : sy = y := hsy'
    obtain rfl : sx = x := hxn.symm
    obtain rfl : i = r := hi'
    show ((rowRead inp _ _ (inp.nx / partitions.toNat)).map _).getD
      ((((sx * (inp.nx / partitions.toNat) + j : Nat) : Int) -
        ((sx * (inp.nx / partitions.toNat) : Nat) : Int)).toNat) _ = _
    have hidx : ((((sx * (inp.nx / partitions.toNat) + j : Nat) : Int) -
        ((sx * (inp.nx / partitions.toNat) : Nat) : Int)).toNat) = j := by
      omega
    rw [hidx]
    rw [getD_map _ _ _ (by simp [rowRead]; omega) 0 _]
    unfold rowRead
    rw [getD_map_range, if_pos hj]
    have he : ((sx * (inp.nx / partitions.toNat) : Nat) : Int) + ((j : Nat) : Int)
        = ((sx * (inp.nx / partitions.toNat) + j : Nat) : Int) := by
      omega
    rw [he]

/-- C7 fails on the code: on a 1×3 raster holding `[110000, 168000, 400000]`
with a single partition, the claim's threshold is
`(max + min) / 3 = (400000 + 110000) / 3 = 170000`, which zeroes the
168000 sample; the code seeds its `min` variable with 100000, so its
threshold is `(400000 + 100000) / 3 ≈ 166667` and the 168000 sample
survives unchanged. -/
theorem autoLocalThresh_counterexample :
    ((Raster.autoLocalThresh
        ⟨3, 1, fun _ x => if x = 0 then 110000 else if x = 1 then 168000 else 400000⟩
        ⟨3, 1, fun _ _ => 0⟩ 1).2).data 0 1 ≠
      (if (⟨3, 1, fun _ x => if x = 0 then 110000 else if x = 1 then 168000 else 400000⟩ :
            Raster).data 0 1 <
          (sectorMax ⟨3, 1, fun _ x => if x = 0 then 110000 else if x = 1 then 168000 else 400000⟩
              3 1 0 0 +
           sectorMin ⟨3, 1, fun _ x => if x = 0 then 110000 else if x = 1 then 168000 else 400000⟩
              3 1 0 0) / 3 then 0
       else (⟨3, 1, fun _ x => if x = 0 then 110000 else if x = 1 then 168000 else 400000⟩ :
            Raster).data 0 1) := by
  have hscan : sectorScan
      ⟨3, 1, fun _ x => if x = 0 then 110000 else if x = 1 then 168000 else 400000⟩
      3 1 0 0 = (100000, 400000) := by
    simp [sectorScan, rowRead, List.range_succ]
    norm_num
  have hv := autoLocalThresh_value
    ⟨3, 1, fun _ x => if x = 0 then 110000 else if x = 1 then 168000 else 400000⟩
    ⟨3, 1, fun _ _ => 0⟩ 1 rfl rfl (by decide) (by decide) 0 0 0 1
    (by decide) (by decide) (by decide) (by decide)
  have e1 : ((0 * ((⟨3, 1, fun _ x => if x = 0 then 110000 else if x = 1 then 168000 else 400000⟩ :
      Raster).ny / Int.toNat 1) + 0 : Nat) : Int) = 0 := by decide
  have e2 : ((0 * ((⟨3, 1, fun _ x => if x = 0 then 110000 else if x = 1 then 168000 else 400000⟩ :
      Raster).nx / Int.toNat 1) + 1 : Nat) : Int) = 1 := by decide
  rw [e1, e2] at hv
  rw [hv]
  have hdata : (⟨3, 1, fun _ x => if x = 0 then 110000 else if x = 1 then 168000 else 400000⟩ :
      Raster).data 0 1 = 168000 := by norm_num
  have hsectors : sectorSamples
      ⟨3, 1, fun _ x => if x = 0 then 110000 else if x = 1 then 168000 else 400000⟩
      3 1 0 0 = [110000, 168000, 400000] := by
    simp [sectorSamples, rowRead, List.range_succ]
  have hmin : sectorMin
      ⟨3, 1, fun _ x => if x = 0 then 110000 else if x = 1 then 168000 else 400000⟩
      3 1 0 0 = 110000 := by
    rw [sectorMin, hsectors]
    norm_num [min_def]
  have hmax : sectorMax
      ⟨3, 1, fun _ x => if x = 0 then 110000 else if x = 1 then 168000 else 400000⟩
      3 1 0 0 = 400000 := by
    rw [sectorMax, hsectors]
    norm_num [max_def]
  have hscan' : sectorScan
      ⟨3, 1, fun _ x => if x = 0 then 110000 else if x = 1 then 168000 else 400000⟩
      ((⟨3, 1, fun _ x => if x = 0 then 110000 else if x = 1 then 168000 else 400000⟩ :
        Raster).nx / Int.toNat 1)
      ((⟨3, 1, fun _ x => if x = 0 then 110000 else if x = 1 then 168000 else 400000⟩ :
        Raster).ny / Int.toNat 1) 0 0 = (100000, 400000) := hscan
  rw [hscan', hdata, hmin, hmax]
  norm_num

/-- C7, amended: with matching dimensions, `autoLocalThresh` raises
`PartitionError` for `partitions ≤ 0` or `partitions > 150` before writing
anything; for `1 ≤ partitions ≤ 150` it raises no error and, in each
sector, computes min as the minimum of the sector's samples AND the seed
100000, max as the maximum of the sector's samples AND the seed 0, sets
`threshold = (max + min) / 3`, writes 0 to every output sample whose input
value is below the threshold and the unchanged input value (re-read from
the input) to every other sample of the sector. -/
theorem autoLocalThresh_amended (inp rasOut : Raster) (partitions : Int)
    (hdx : inp.nx = rasOut.nx) (hdy : inp.ny = rasOut.ny) :
    ((partitions ≤ 0 ∨ partitions > 150) →
      Raster.autoLocalThresh inp rasOut partitions = (some .partition, rasOut)) ∧
    (1 ≤ partitions → partitions ≤ 150 →
      (Raster.autoLocalThresh inp rasOut partitions).1 = none ∧
      (∀ sx sy i j : Nat, sx < partitions.toNat → sy < partitions.toNat →
        i < inp.ny / partitions.toNat → j < inp.nx / partitions.toNat →
        ((Raster.autoLocalThresh inp rasOut partitions).2).data
            ((sy * (inp.ny / partitions.toNat) + i : Nat) : Int)
            ((sx * (inp.nx / partitions.toNat) + j : Nat) : Int) =
          if inp.data ((sy * (inp.ny / partitions.toNat) + i : Nat) : Int)
               ((sx * (inp.nx / partitions.toNat) + j : Nat) : Int) <
              ((sectorSamples inp (inp.nx / partitions.toNat)
                  (inp.ny / partitions.toNat) sx sy).foldl max 0 +
               (sectorSamples inp (inp.nx / partitions.toNat)
                  (inp.ny / partitions.toNat) sx sy).foldl min 100000) / 3
          then 0
          else inp.data ((sy * (inp.ny / partitions.toNat) + i : Nat) : Int)
            ((sx * (inp.nx / partitions.toNat) + j : Nat) : Int))) := by
  constructor
  · intro herr
    unfold Raster.autoLocalThresh
    rw [if_neg (by tauto), if_neg (by tauto)]
    rcases herr with h | h
    · rw [if_pos h]
    · by_cases h0 : partitions ≤ 0
      · rw [if_pos h0]
      · rw [if_neg h0, if_pos h]
  · intro h1 h150
    constructor
    · unfold Raster.autoLocalThresh
      rw [if_neg (by tauto), if_neg (by tauto), if_neg (by omega), if_neg (by omega)]
    · intro sx sy i j hsx hsy hi hj
      have hv := autoLocalThresh_value inp rasOut partitions hdx hdy h1 h150
        sx sy i j hsx hsy hi hj
      rw [sectorScan_eq] at hv
      exact hv

/-- Witness for the amended C7 on the counterexample raster: the sample
168000 is at or above the code's threshold `(400000 + 100000)/3` and is
kept unchanged; the sample 110000 is below it and becomes 0. -/
theorem autoLocalThresh_amended_witness :
    (Raster.autoLocalThresh
      ⟨3, 1, fun _ x => if x = 0 then 110000 else if x = 1 then 168000 else 400000⟩
      ⟨3, 1, fun _ _ => 0⟩ 1).1 = none ∧
    ((Raster.autoLocalThresh
      ⟨3, 1, fun _ x => if x = 0 then 110000 else if x = 1 then 168000 else 400000⟩
      ⟨3, 1, fun _ _ => 0⟩ 1).2).data 0 1 = 168000 ∧
    ((Raster.autoLocalThresh
      ⟨3, 1, fun _ x => if x = 0 then 110000 else if x = 1 then 168000 else 400000⟩
      ⟨3, 1, fun _ _ => 0⟩ 1).2).data 0 0 = 0 := by
  have h := autoLocalThresh_amended
    ⟨3, 1, fun _ x => if x = 0 then 110000 else if x = 1 then 168000 else 400000⟩
    ⟨3, 1, fun _ _ => 0⟩ 1 rfl rfl
  have hs : sectorSamples
      ⟨3, 1, fun _ x => if x = 0 then 110000 else if x = 1 then 168000 else 400000⟩
      ((⟨3, 1, fun _ x => if x = 0 then 110000 else if x = 1 then 168000 else 400000⟩ :
        Raster).nx / Int.toNat 1)
      ((⟨3, 1, fun _ x => if x = 0 then 110000 else if x = 1 then 168000 else 400000⟩ :
        Raster).ny / Int.toNat 1) 0 0 = [110000, 168000, 400000] := by
    show sectorSamples _ 3 1 0 0 = _
    simp [sectorSamples, rowRead, List.range_succ]
  refine ⟨(h.2 (by decide) (by decide)).1, ?_, ?_⟩
  · have h2 := (h.2 (by decide) (by decide)).2 0 0 0 1
      (by decide) (by decide) (by decide) (by decide)
    have e1 : ((0 * ((⟨3, 1, fun _ x => if x = 0 then 110000 else if x = 1 then 168000 else 400000⟩ :
        Raster).ny / Int.toNat 1) + 0 : Nat) : Int) = 0 := by decide
    have e2 : ((0 * ((⟨3, 1, fun _ x => if x = 0 then 110000 else if x = 1 then 168000 else 400000⟩ :
        Raster).nx / Int.toNat 1) + 1 : Nat) : Int) = 1 := by decide
    rw [e1, e2, hs] at h2
    rw [h2]
    norm_num [min_def, max_def]
  · have h2 := (h.2 (by decide) (by decide)).2 0 0 0 0
      (by decide) (by decide) (by decide) (by decide)
    have e1 : ((0 * ((⟨3, 1, fun _ x => if x = 0 then 110000 else if x = 1 then 168000 else 400000⟩ :
        Raster).ny / Int.toNat 1) + 0 : Nat) : Int) = 0 := by decide
    have e2 : ((0 * ((⟨3, 1, fun _ x => if x = 0 then 110000 else if x = 1 then 168000 else 400000⟩ :
        Raster).nx / Int.toNat 1) + 0 : Nat) : Int) = 0 := by decide
    rw [e1, e2, hs] at h2
    rw [h2]
    norm_num [min_def, max_def]

end GeoStar
